import Mathlib

/-! Verification development for the guardrail streaming / long-context
notebook of the repository (responsible-ai/guardrails-for-amazon-bedrock
samples).  The Python functions of the notebook are shallowly embedded as
Lean functions over `List Char`; the external Bedrock service is a
parameter of type `List Char → GuardrailResponse`.  The notebook chunks
long text with `textwrap.wrap`, so that library function (with all-default
options, as the notebook calls it) is embedded first. -/

namespace Textwrap

/-- The six whitespace characters recognized by textwrap
(its `_whitespace` constant is the tab, newline, vertical-tab, form-feed,
carriage-return and space characters). -/
def isPyWS (c : Char) : Bool :=
  c = '\t' || c = '\n' || c = '\x0b' || c = '\x0c' || c = '\r' || c = ' '

/-- ASCII model of the regex class of word characters (alphanumeric or
underscore). -/
def isWordChar (c : Char) : Bool :=
  c.isAlphanum || c = '_'

/-- ASCII model of the textwrap `letter` class (a word character that is
not a digit). -/
def isLetterChar (c : Char) : Bool :=
  c.isAlpha || c = '_'

/-- The `word_punct` class of the wordsep regex: word characters plus
a few punctuation characters. -/
def isWordPunct (c : Char) : Bool :=
  isWordChar c || c = '!' || c = '"' || c = '\'' || c = '&' || c = '.' ||
    c = ',' || c = '?'

/-- Python `str.expandtabs` with tab size 8: each tab becomes spaces up to
the next multiple of 8; newline and carriage return reset the column. -/
def expandtabs : Nat → List Char → List Char
  | _, [] => []
  | col, c :: cs =>
    if c = '\t' then
      List.replicate (8 - col % 8) ' ' ++ expandtabs (col + (8 - col % 8)) cs
    else if c = '\n' || c = '\r' then
      c :: expandtabs 0 cs
    else
      c :: expandtabs (col + 1) cs

/-- `TextWrapper._munge_whitespace` with the default options: expand tabs,
then replace every recognized whitespace character by a space. -/
def munge_whitespace (text : List Char) : List Char :=
  (expandtabs 0 text).map (fun c => if isPyWS c then ' ' else c)

/-- Length of the leading run of hyphens. -/
def hyphenRun : List Char → Nat
  | '-' :: cs => hyphenRun cs + 1
  | _ => 0

/-- Lookbehind of the hyphenated-word branch of the wordsep regex, applied
to the characters preceding the hyphen, most recent first: two letters, or
letter, hyphen, letter. -/
def hyphenLookbehind : List Char → Bool
  | c0 :: c1 :: rest =>
    (isLetterChar c0 && isLetterChar c1) ||
      (isLetterChar c0 && c1 = '-' &&
        (match rest with
         | c2 :: _ => isLetterChar c2
         | [] => false))
  | _ => false

/-- Lookahead of the hyphenated-word branch: letter, optional hyphen,
letter. -/
def hyphenLookahead : List Char → Bool
  | d :: e :: rest =>
    isLetterChar d &&
      (isLetterChar e ||
        (e = '-' &&
          (match rest with
           | f :: _ => isLetterChar f
           | [] => false)))
  | _ => false

/-- Lookahead shared by the em-dash branches: a run of at least two
hyphens followed by a word character. -/
def emDashAhead (rest : List Char) : Bool :=
  decide (2 ≤ hyphenRun rest) &&
    (match rest.drop (hyphenRun rest) with
     | d :: _ => isWordChar d
     | [] => false)

/-- The em-dash alternative of the wordsep regex: a hyphen run of length
at least two, preceded by a word-punct character and followed by a word
character. -/
def emDashMatch (prior rest : List Char) : Bool :=
  match prior with
  | p :: _ => isWordPunct p && emDashAhead rest
  | [] => false

/-- Character scanner equivalent of splitting with the default wordsep
regex of textwrap.  `prior` holds the characters already consumed, most
recent first (the lookbehinds of the regex may inspect them), `acc` the
characters of the word currently being scanned, most recent first.  The
regex alternatives are scanned in their order: a maximal whitespace run;
an em-dash run between words; otherwise a word extended lazily until its
first end position (a hyphen break, whitespace or end of input, or a
following em-dash).  `fuel` only bounds the recursion; `split` below
supplies enough fuel for any input (sufficiency is proved for the lemmas
that need it). -/
def splitGo : Nat → List Char → List Char → List Char → List (List Char)
  | 0, _, _, _ => []
  | Nat.succ n, prior, acc, rest =>
    match acc, rest with
    | [], [] => []
    | a :: as, [] => (a :: as).reverse :: []
    | [], c :: cs =>
      if isPyWS c then
        ((c :: cs).takeWhile isPyWS) ::
          splitGo n (((c :: cs).takeWhile isPyWS).reverse ++ prior) []
            ((c :: cs).dropWhile isPyWS)
      else if emDashMatch prior (c :: cs) then
        ((c :: cs).take (hyphenRun (c :: cs))) ::
          splitGo n (((c :: cs).take (hyphenRun (c :: cs))).reverse ++ prior) []
            ((c :: cs).drop (hyphenRun (c :: cs)))
      else
        splitGo n prior [c] cs
    | a :: as, c :: cs =>
      if c = '-' && hyphenLookbehind (a :: as ++ prior) && hyphenLookahead cs then
        ('-' :: a :: as).reverse :: splitGo n ('-' :: a :: as ++ prior) [] cs
      else if isPyWS c then
        (a :: as).reverse :: splitGo n (a :: as ++ prior) [] (c :: cs)
      else if isWordPunct a && emDashAhead (c :: cs) then
        (a :: as).reverse :: splitGo n (a :: as ++ prior) [] (c :: cs)
      else
        splitGo n prior (c :: a :: as) cs

/-- `TextWrapper._split` with the default `break_on_hyphens=True` regex. -/
def split (text : List Char) : List (List Char) :=
  splitGo (2 * text.length + 2) [] [] text

/-- A chunk mapped to the empty string by `str.strip` (all whitespace). -/
def chunkIsWS (c : List Char) : Bool := c.all isPyWS

/-- Total character count of a chunk list. -/
def totalLen (cs : List (List Char)) : Nat := (cs.map List.length).sum

/-- The inner loop of `_wrap_chunks`: greedily move chunks onto the
current line while the accumulated length stays within `width`.  Returns
the line, its length, and the remaining chunks. -/
def takeFit (width : Nat) : Nat → List (List Char) →
    List (List Char) × Nat × List (List Char)
  | curLen, [] => ([], curLen, [])
  | curLen, c :: cs =>
    if curLen + c.length ≤ width then
      let r := takeFit width (curLen + c.length) cs
      (c :: r.1, r.2.1, r.2.2)
    else
      ([], curLen, c :: cs)

/-- Python `chunk.rfind` of a hyphen in the first `e` characters: the
largest hyphen position below `e`, if any. -/
def rfindHyphen : List Char → Nat → Option Nat
  | _, 0 => none
  | [], _ => none
  | c :: cs, Nat.succ e =>
    match rfindHyphen cs e with
    | some h => some (h + 1)
    | none => if c = '-' then some 0 else none

/-- `TextWrapper._handle_long_word` with the default `break_long_words`
and `break_on_hyphens`: split the head chunk, preferring a break after its
last hyphen inside the available space.  Returns the piece put on the
current line and the chunk remainder. -/
def handle_long_word (width curLen : Nat) (chunk : List Char) :
    List Char × List Char :=
  let spaceLeft := if width < 1 then 1 else width - curLen
  let e :=
    if spaceLeft < chunk.length then
      match rfindHyphen chunk spaceLeft with
      | some h =>
        if decide (0 < h) && (chunk.take h).any (fun c => !(c = '-' : Bool)) then
          h + 1
        else spaceLeft
      | none => spaceLeft
    else spaceLeft
  (chunk.take e, chunk.drop e)

/-- One iteration of the chunk loop of `_wrap_chunks` (default options,
no indents, `max_lines=None`): drop a leading whitespace chunk when a line
was already emitted, greedily fill the line, break a chunk longer than the
whole width, drop a trailing whitespace chunk, and emit the line if it is
non-empty.  Returns the emitted line, if any, and the remaining chunks. -/
def wrapStep (width : Nat) (hasLines : Bool) (chunks : List (List Char)) :
    Option (List Char) × List (List Char) :=
  let chunks1 :=
    match chunks with
    | c0 :: r => if hasLines && chunkIsWS c0 then r else chunks
    | [] => chunks
  let t := takeFit width 0 chunks1
  let s :=
    match t.2.2 with
    | c :: r =>
      if width < c.length then
        let hw := handle_long_word width t.2.1 c
        (t.1 ++ [hw.1], hw.2 :: r)
      else (t.1, t.2.2)
    | [] => (t.1, t.2.2)
  let line3 :=
    match s.1.getLast? with
    | some lst => if chunkIsWS lst then s.1.dropLast else s.1
    | none => s.1
  (if line3.isEmpty then none else some line3.flatten, s.2)

/-- The chunk loop of `_wrap_chunks`, fuel-bounded; `wrap_chunks` supplies
enough fuel (every iteration consumes at least one character or one
chunk). -/
def wrapGo (width : Nat) : Nat → Bool → List (List Char) → List (List Char)
  | 0, _, _ => []
  | Nat.succ n, hasLines, chunks =>
    match chunks with
    | [] => []
    | _ :: _ =>
      let st := wrapStep width hasLines chunks
      match st.1 with
      | some l => l :: wrapGo width n true st.2
      | none => wrapGo width n hasLines st.2

/-- `TextWrapper._wrap_chunks` with the default options and
`max_lines=None`. -/
def wrap_chunks (width : Nat) (chunks : List (List Char)) : List (List Char) :=
  wrapGo width (totalLen chunks + chunks.length + 1) false chunks

/-- `textwrap.wrap text width` with all-default options.  (Python raises
`ValueError` for a non-positive width; the notebook only calls it at width
25000.) -/
def wrap (width : Nat) (text : List Char) : List (List Char) :=
  wrap_chunks width (split (munge_whitespace text))


/-! Step equations for `splitGo`, convenient for symbolic evaluation. -/

theorem splitGo_nil_nil (n : Nat) (prior : List Char) :
    splitGo (n + 1) prior [] [] = [] := rfl

theorem splitGo_emit_end (n : Nat) (prior : List Char) (a : Char) (as : List Char) :
    splitGo (n + 1) prior (a :: as) [] = [(a :: as).reverse] := rfl

theorem splitGo_ws_step (n : Nat) (prior : List Char) (c : Char) (cs : List Char)
    (h : isPyWS c = true) :
    splitGo (n + 1) prior [] (c :: cs) =
      ((c :: cs).takeWhile isPyWS) ::
        splitGo n (((c :: cs).takeWhile isPyWS).reverse ++ prior) []
          ((c :: cs).dropWhile isPyWS) := by
  simp only [splitGo, h, if_pos]

theorem splitGo_emdash_step (n : Nat) (prior : List Char) (c : Char) (cs : List Char)
    (h : isPyWS c = false) (h2 : emDashMatch prior (c :: cs) = true) :
    splitGo (n + 1) prior [] (c :: cs) =
      ((c :: cs).take (hyphenRun (c :: cs))) ::
        splitGo n (((c :: cs).take (hyphenRun (c :: cs))).reverse ++ prior) []
          ((c :: cs).drop (hyphenRun (c :: cs))) := by
  simp only [splitGo, h, h2, if_pos, if_neg, Bool.false_eq_true, not_false_iff]

theorem splitGo_wordstart_step (n : Nat) (prior : List Char) (c : Char) (cs : List Char)
    (h : isPyWS c = false) (h2 : emDashMatch prior (c :: cs) = false) :
    splitGo (n + 1) prior [] (c :: cs) = splitGo n prior [c] cs := by
  simp only [splitGo, h, h2, Bool.false_eq_true, if_neg, not_false_iff]

theorem splitGo_hyphen_step (n : Nat) (prior : List Char) (a : Char) (as : List Char)
    (c : Char) (cs : List Char)
    (h : (c = '-' && hyphenLookbehind (a :: as ++ prior) && hyphenLookahead cs) = true) :
    splitGo (n + 1) prior (a :: as) (c :: cs) =
      ('-' :: a :: as).reverse :: splitGo n ('-' :: a :: as ++ prior) [] cs := by
  simp only [splitGo, h, if_pos]

theorem splitGo_wsemit_step (n : Nat) (prior : List Char) (a : Char) (as : List Char)
    (c : Char) (cs : List Char)
    (h : (c = '-' && hyphenLookbehind (a :: as ++ prior) && hyphenLookahead cs) = false)
    (h2 : isPyWS c = true) :
    splitGo (n + 1) prior (a :: as) (c :: cs) =
      (a :: as).reverse :: splitGo n (a :: as ++ prior) [] (c :: cs) := by
  simp only [splitGo, h, h2, Bool.false_eq_true, if_neg, if_pos, not_false_iff]

theorem splitGo_punctemit_step (n : Nat) (prior : List Char) (a : Char) (as : List Char)
    (c : Char) (cs : List Char)
    (h : (c = '-' && hyphenLookbehind (a :: as ++ prior) && hyphenLookahead cs) = false)
    (h2 : isPyWS c = false)
    (h3 : (isWordPunct a && emDashAhead (c :: cs)) = true) :
    splitGo (n + 1) prior (a :: as) (c :: cs) =
      (a :: as).reverse :: splitGo n (a :: as ++ prior) [] (c :: cs) := by
  simp only [splitGo, h, h2, h3, Bool.false_eq_true, if_neg, if_pos, not_false_iff]

theorem splitGo_consume_step (n : Nat) (prior : List Char) (a : Char) (as : List Char)
    (c : Char) (cs : List Char)
    (h : (c = '-' && hyphenLookbehind (a :: as ++ prior) && hyphenLookahead cs) = false)
    (h2 : isPyWS c = false)
    (h3 : (isWordPunct a && emDashAhead (c :: cs)) = false) :
    splitGo (n + 1) prior (a :: as) (c :: cs) = splitGo n prior (c :: a :: as) cs := by
  simp only [splitGo, h, h2, h3, Bool.false_eq_true, if_neg, not_false_iff]

/-- Concatenating the chunks of the wordsep scan recovers exactly the
scanned text (given enough fuel): the splitter partitions its input. -/
theorem splitGo_flatten (fuel : Nat) : ∀ (prior acc rest : List Char),
    2 * rest.length + acc.length + 1 ≤ fuel →
    (splitGo fuel prior acc rest).flatten = acc.reverse ++ rest := by
  induction fuel with
  | zero =>
    intro prior acc rest h
    omega
  | succ n ih =>
    intro prior acc rest h
    rcases acc with _ | ⟨a, as⟩
    · rcases rest with _ | ⟨c, cs⟩
      · simp [splitGo_nil_nil]
      · by_cases hws : isPyWS c = true
        · rw [splitGo_ws_step n prior c cs hws]
          have hd : ((c :: cs).dropWhile isPyWS).length ≤ cs.length := by
            rw [List.dropWhile_cons, if_pos hws]
            exact List.Sublist.length_le (List.dropWhile_sublist isPyWS)
          have hih := ih (((c :: cs).takeWhile isPyWS).reverse ++ prior) []
            ((c :: cs).dropWhile isPyWS)
            (by simp only [List.length_cons] at h; simp only [List.length_nil]; omega)
          simp only [List.flatten_cons, hih]
          simp [List.takeWhile_append_dropWhile]
        · simp only [Bool.not_eq_true] at hws
          by_cases hed : emDashMatch prior (c :: cs) = true
          · rw [splitGo_emdash_step n prior c cs hws hed]
            have hk : 2 ≤ hyphenRun (c :: cs) := by
              rcases prior with _ | ⟨p, ps⟩
              · simp [emDashMatch] at hed
              · simp only [emDashMatch, emDashAhead, Bool.and_eq_true,
                  decide_eq_true_eq] at hed
                exact hed.2.1
            have hih := ih (((c :: cs).take (hyphenRun (c :: cs))).reverse ++ prior) []
              ((c :: cs).drop (hyphenRun (c :: cs)))
              (by
                simp only [List.length_drop, List.length_cons, List.length_nil]
                simp only [List.length_cons] at h
                omega)
            simp only [List.flatten_cons, hih]
            simp [List.take_append_drop]
          · simp only [Bool.not_eq_true] at hed
            rw [splitGo_wordstart_step n prior c cs hws hed]
            have hih := ih prior [c] cs
              (by simp only [List.length_cons] at h ⊢; simp only [List.length_nil]; omega)
            simp only [hih]
            simp
    · rcases rest with _ | ⟨c, cs⟩
      · simp [splitGo_emit_end]
      · simp only [List.length_cons] at h
        by_cases h1 : (c = '-' && hyphenLookbehind (a :: as ++ prior) && hyphenLookahead cs) = true
        · have hc : c = '-' := by
            simp only [Bool.and_eq_true, decide_eq_true_eq] at h1
            exact h1.1.1
          rw [splitGo_hyphen_step n prior a as c cs h1]
          have hih := ih ('-' :: a :: as ++ prior) [] cs
            (by simp only [List.length_nil]; omega)
          simp only [List.flatten_cons, hih]
          subst hc
          simp
        · simp only [Bool.not_eq_true] at h1
          by_cases h2 : isPyWS c = true
          · rw [splitGo_wsemit_step n prior a as c cs h1 h2]
            have hih := ih (a :: as ++ prior) [] (c :: cs)
              (by simp only [List.length_cons, List.length_nil]; omega)
            simp only [List.flatten_cons, hih]
            simp
          · simp only [Bool.not_eq_true] at h2
            by_cases h3 : (isWordPunct a && emDashAhead (c :: cs)) = true
            · rw [splitGo_punctemit_step n prior a as c cs h1 h2 h3]
              have hih := ih (a :: as ++ prior) [] (c :: cs)
                (by simp only [List.length_cons, List.length_nil]; omega)
              simp only [List.flatten_cons, hih]
              simp
            · simp only [Bool.not_eq_true] at h3
              rw [splitGo_consume_step n prior a as c cs h1 h2 h3]
              have hih := ih prior (c :: a :: as) cs
                (by simp only [List.length_cons]; omega)
              simp only [hih]
              simp

/-- The wordsep scan of a text recovers the text. -/
theorem split_flatten (text : List Char) : (split text).flatten = text := by
  have := splitGo_flatten (2 * text.length + 2) [] [] text
    (by simp only [List.length_nil]; omega)
  simpa [split] using this

/-- Every chunk of a whitespace-free scan is non-empty and
whitespace-free. -/
theorem splitGo_chunks_sound (fuel : Nat) : ∀ (prior acc rest : List Char),
    (∀ c ∈ acc, isPyWS c = false) → (∀ c ∈ rest, isPyWS c = false) →
    ∀ chunk ∈ splitGo fuel prior acc rest,
      chunk ≠ [] ∧ ∀ c ∈ chunk, isPyWS c = false := by
  induction fuel with
  | zero =>
    intro prior acc rest _ _ chunk hm
    simp [splitGo] at hm
  | succ n ih =>
    intro prior acc rest hacc hrest chunk hm
    rcases acc with _ | ⟨a, as⟩
    · rcases rest with _ | ⟨c, cs⟩
      · simp [splitGo_nil_nil] at hm
      · have hws : isPyWS c = false := hrest c (by simp)
        by_cases hed : emDashMatch prior (c :: cs) = true
        · rw [splitGo_emdash_step n prior c cs hws hed] at hm
          have hk : 2 ≤ hyphenRun (c :: cs) := by
            rcases prior with _ | ⟨p, ps⟩
            · simp [emDashMatch] at hed
            · simp only [emDashMatch, emDashAhead, Bool.and_eq_true,
                decide_eq_true_eq] at hed
              exact hed.2.1
          rcases List.mem_cons.mp hm with hm | hm
          · subst hm
            constructor
            · rcases Nat.exists_eq_add_of_le hk with ⟨k, hkk⟩
              rw [hkk]
              simp [List.take_succ_cons, Nat.add_comm]
            · intro c2 hc2
              exact hrest c2 (List.take_subset _ _ hc2)
          · exact ih _ [] _ (by simp)
              (fun c2 hc2 => hrest c2 (List.drop_subset _ _ hc2)) chunk hm
        · simp only [Bool.not_eq_true] at hed
          rw [splitGo_wordstart_step n prior c cs hws hed] at hm
          exact ih prior [c] cs (by simpa using hws)
            (fun c2 hc2 => hrest c2 (by simp [hc2])) chunk hm
    · rcases rest with _ | ⟨c, cs⟩
      · rw [splitGo_emit_end] at hm
        rcases List.mem_cons.mp hm with hm | hm
        · subst hm
          refine ⟨by simp, ?_⟩
          intro c2 hc2
          exact hacc c2 (List.mem_reverse.mp hc2)
        · simp at hm
      · have hwsc : isPyWS c = false := hrest c (by simp)
        by_cases h1 : (c = '-' && hyphenLookbehind (a :: as ++ prior) && hyphenLookahead cs) = true
        · rw [splitGo_hyphen_step n prior a as c cs h1] at hm
          rcases List.mem_cons.mp hm with hm | hm
          · subst hm
            refine ⟨by simp, ?_⟩
            intro c2 hc2
            rw [List.mem_reverse] at hc2
            rcases List.mem_cons.mp hc2 with hc2 | hc2
            · subst hc2
              decide
            · exact hacc c2 hc2
          · exact ih _ [] cs (by simp)
              (fun c2 hc2 => hrest c2 (by simp [hc2])) chunk hm
        · simp only [Bool.not_eq_true] at h1
          by_cases h3 : (isWordPunct a && emDashAhead (c :: cs)) = true
          · rw [splitGo_punctemit_step n prior a as c cs h1 hwsc h3] at hm
            rcases List.mem_cons.mp hm with hm | hm
            · subst hm
              refine ⟨by simp, ?_⟩
              intro c2 hc2
              exact hacc c2 (List.mem_reverse.mp hc2)
            · exact ih _ [] (c :: cs) (by simp) hrest chunk hm
          · simp only [Bool.not_eq_true] at h3
            rw [splitGo_consume_step n prior a as c cs h1 hwsc h3] at hm
            refine ih prior (c :: a :: as) cs ?_
              (fun c2 hc2 => hrest c2 (by simp [hc2])) chunk hm
            intro c2 hc2
            rcases List.mem_cons.mp hc2 with hc2 | hc2
            · subst hc2
              exact hwsc
            · exact hacc c2 hc2

/-- Chunks of the wordsep split of a whitespace-free text are non-empty
and whitespace-free. -/
theorem split_chunks_sound (text : List Char)
    (h : ∀ c ∈ text, isPyWS c = false) :
    ∀ chunk ∈ split text, chunk ≠ [] ∧ ∀ c ∈ chunk, isPyWS c = false :=
  splitGo_chunks_sound _ [] [] text (by simp) h

theorem isPyWS_ne_hyphen {c : Char} (h : isPyWS c = true) :
    (c = '-' : Bool) = false := by
  simp only [isPyWS, Bool.or_eq_true, decide_eq_true_eq] at h
  rcases h with ((((h | h) | h) | h) | h) | h <;> subst h <;> decide

theorem emDashAhead_cons_a (l : List Char) : emDashAhead ('a' :: l) = false := by
  simp [emDashAhead, hyphenRun]

theorem emDashMatch_of_ahead_false (prior rest : List Char)
    (h : emDashAhead rest = false) : emDashMatch prior rest = false := by
  rcases prior with _ | ⟨p, ps⟩ <;> simp [emDashMatch, h]

/-- Scanning a trailing run of letters: the scanner consumes the run and
emits the accumulated word at the end of the text. -/
theorem splitGo_a_run : ∀ (n : Nat) (fuel : Nat) (prior acc : List Char)
    (a0 : Char) (as0 : List Char), acc = a0 :: as0 → n < fuel →
    splitGo fuel prior acc (List.replicate n 'a') =
      [acc.reverse ++ List.replicate n 'a'] := by
  intro n
  induction n with
  | zero =>
    intro fuel prior acc a0 as0 hacc hf
    rcases fuel with _ | m
    · omega
    · subst hacc
      simp [splitGo_emit_end]
  | succ k ih =>
    intro fuel prior acc a0 as0 hacc hf
    rcases fuel with _ | m
    · omega
    · subst hacc
      rw [List.replicate_succ]
      rw [splitGo_consume_step m prior a0 as0 'a' (List.replicate k 'a')
        (by simp) (by decide) (by simp [emDashAhead_cons_a])]
      rw [ih m prior ('a' :: a0 :: as0) 'a' (a0 :: as0) rfl (by omega)]
      simp [List.replicate_succ]

/-- Scanning a run of letters that ends at a whitespace character: the
scanner consumes the run, emits the accumulated word, and continues at the
whitespace with an empty accumulator. -/
theorem splitGo_a_run_ws : ∀ (n m : Nat) (prior acc : List Char)
    (a0 c0 : Char) (as0 rest : List Char), acc = a0 :: as0 → isPyWS c0 = true →
    splitGo (n + (m + 1)) prior acc (List.replicate n 'a' ++ c0 :: rest) =
      (acc.reverse ++ List.replicate n 'a') ::
        splitGo m (List.replicate n 'a' ++ acc ++ prior) [] (c0 :: rest) := by
  intro n
  induction n with
  | zero =>
    intro m prior acc a0 c0 as0 rest hacc hws
    subst hacc
    simp only [List.replicate, List.nil_append, Nat.zero_add]
    rw [splitGo_wsemit_step m prior a0 as0 c0 rest
      (by simp [isPyWS_ne_hyphen hws]) hws]
    simp
  | succ k ih =>
    intro m prior acc a0 c0 as0 rest hacc hws
    subst hacc
    rw [List.replicate_succ]
    have hfe : (k + 1) + (m + 1) = (k + (m + 1)) + 1 := by omega
    rw [hfe, List.cons_append]
    rw [splitGo_consume_step (k + (m + 1)) prior a0 as0 'a'
      (List.replicate k 'a' ++ c0 :: rest)
      (by simp) (by decide) (by simp [emDashAhead_cons_a])]
    rw [ih m prior ('a' :: a0 :: as0) 'a' c0 (a0 :: as0) rest rfl hws]
    have hhd : ('a' :: a0 :: as0).reverse ++ List.replicate k 'a' =
        (a0 :: as0).reverse ++ 'a' :: List.replicate k 'a' := by
      simp [List.reverse_cons]
    have hpr : (List.replicate k 'a' ++ 'a' :: a0 :: as0) =
        ('a' :: List.replicate k 'a') ++ a0 :: as0 := by
      rw [List.append_cons, ← List.replicate_succ', List.replicate_succ]
    rw [hhd, hpr]

theorem expandtabs_no_tab : ∀ (t : List Char) (col : Nat),
    (∀ c ∈ t, c ≠ '\t') → expandtabs col t = t := by
  intro t
  induction t with
  | nil => intro col h; rfl
  | cons c cs ih =>
    intro col h
    have hc : c ≠ '\t' := h c (by simp)
    rw [expandtabs]
    rw [if_neg hc]
    by_cases hnl : (c = '\n' || c = '\r') = true
    · rw [if_pos hnl, ih 0 (fun d hd => h d (by simp [hd]))]
    · rw [if_neg hnl, ih (col + 1) (fun d hd => h d (by simp [hd]))]

/-- Munging is the identity on texts whose characters are either
non-whitespace or already plain spaces (no tabs, newlines, or other
whitespace variants). -/
theorem munge_id (t : List Char)
    (h : ∀ c ∈ t, isPyWS c = false ∨ c = ' ') : munge_whitespace t = t := by
  have htab : ∀ c ∈ t, c ≠ '\t' := by
    intro c hc hct
    rcases h c hc with hws | hsp
    · rw [hct] at hws
      simp [isPyWS] at hws
    · rw [hct] at hsp
      exact absurd hsp (by decide)
  rw [munge_whitespace, expandtabs_no_tab t 0 htab]
  induction t with
  | nil => rfl
  | cons c cs ih =>
    rw [List.map_cons]
    have hc : (if isPyWS c then ' ' else c) = c := by
      rcases h c (by simp) with hws | hsp
      · rw [hws]
        simp
      · subst hsp
        simp
    rw [hc, ih (fun d hd => h d (by simp [hd]))
      (fun d hd => htab d (by simp [hd]))]

/-- The wordsep split of a long run of spaces is the single whitespace
chunk holding the whole run (instantiated at the length used by the
counterexamples). -/
theorem split_spaces :
    split (List.replicate 25001 ' ') = [List.replicate 25001 ' '] := by
  rw [split]
  have hlen : (List.replicate 25001 ' ' : List Char).length = 25001 :=
    List.length_replicate 25001 ' '
  rw [hlen, show (2 * 25001 + 2 : Nat) = 50003 + 1 from rfl]
  rw [show (25001 : Nat) = 25000 + 1 from rfl, List.replicate_succ]
  rw [splitGo_ws_step 50003 [] ' ' (List.replicate 25000 ' ') (by decide)]
  have htw : (' ' :: List.replicate 25000 ' ').takeWhile isPyWS =
      ' ' :: List.replicate 25000 ' ' := by
    rw [← List.replicate_succ, List.takeWhile_replicate,
      if_pos (by decide : isPyWS ' ' = true), List.replicate_succ]
  have hdw : (' ' :: List.replicate 25000 ' ').dropWhile isPyWS = [] := by
    rw [← List.replicate_succ, List.dropWhile_replicate,
      if_pos (by decide : isPyWS ' ' = true)]
  rw [htw, hdw]
  rw [show (50003 : Nat) = 50002 + 1 from rfl, splitGo_nil_nil]

/-- The wordsep split of the boundary-whitespace counterexample text:
a long letter run, one space, one letter. -/
theorem split_T0 :
    split (List.replicate 24999 'a' ++ ' ' :: ['b']) =
      [List.replicate 24999 'a', [' '], ['b']] := by
  rw [split]
  have hlen : (List.replicate 24999 'a' ++ ' ' :: ['b'] : List Char).length = 25001 := by
    rw [List.length_append, List.length_replicate]
    rfl
  rw [hlen, show (2 * 25001 + 2 : Nat) = 50003 + 1 from rfl]
  rw [show (24999 : Nat) = 24998 + 1 from rfl, List.replicate_succ, List.cons_append]
  rw [splitGo_wordstart_step 50003 [] 'a' (List.replicate 24998 'a' ++ ' ' :: ['b'])
    (by decide) rfl]
  rw [show (50003 : Nat) = 24998 + (25004 + 1) from rfl]
  rw [splitGo_a_run_ws 24998 25004 [] ['a'] 'a' ' ' [] ['b'] rfl (by decide)]
  rw [show (25004 : Nat) = 25003 + 1 from rfl]
  rw [splitGo_ws_step 25003 (List.replicate 24998 'a' ++ ['a'] ++ []) ' ' ['b'] (by decide)]
  have htw : (' ' :: ['b']).takeWhile isPyWS = [' '] := by decide
  have hdw : (' ' :: ['b']).dropWhile isPyWS = ['b'] := by decide
  rw [htw, hdw]
  rw [show (25003 : Nat) = 25002 + 1 from rfl]
  rw [splitGo_wordstart_step 25002 ([' '].reverse ++ (List.replicate 24998 'a' ++ ['a'] ++ []))
    'b' [] (by decide) (emDashMatch_of_ahead_false _ ['b'] (by decide))]
  rw [show (25002 : Nat) = 25001 + 1 from rfl, splitGo_emit_end]
  rfl

theorem takeFit_cons_fit (width curLen : Nat) (c : List Char) (cs : List (List Char))
    (h : curLen + c.length ≤ width) :
    takeFit width curLen (c :: cs) =
      (c :: (takeFit width (curLen + c.length) cs).1,
       (takeFit width (curLen + c.length) cs).2.1,
       (takeFit width (curLen + c.length) cs).2.2) := by
  rw [takeFit, if_pos h]

theorem takeFit_cons_stop (width curLen : Nat) (c : List Char) (cs : List (List Char))
    (h : width < curLen + c.length) :
    takeFit width curLen (c :: cs) = ([], curLen, c :: cs) := by
  rw [takeFit, if_neg (by omega)]

theorem takeFit_nil (width curLen : Nat) :
    takeFit width curLen [] = ([], curLen, []) := rfl

theorem takeFit_split (width : Nat) : ∀ (cs : List (List Char)) (curLen : Nat),
    (takeFit width curLen cs).1 ++ (takeFit width curLen cs).2.2 = cs := by
  intro cs
  induction cs with
  | nil => intro curLen; rfl
  | cons c cs ih =>
    intro curLen
    by_cases h : curLen + c.length ≤ width
    · rw [takeFit_cons_fit width curLen c cs h]
      simpa using ih (curLen + c.length)
    · rw [takeFit_cons_stop width curLen c cs (by omega)]
      rfl

theorem takeFit_len (width : Nat) : ∀ (cs : List (List Char)) (curLen : Nat),
    (takeFit width curLen cs).2.1 = curLen + totalLen (takeFit width curLen cs).1 := by
  intro cs
  induction cs with
  | nil => intro curLen; simp [takeFit_nil, totalLen]
  | cons c cs ih =>
    intro curLen
    by_cases h : curLen + c.length ≤ width
    · rw [takeFit_cons_fit width curLen c cs h]
      have hh := ih (curLen + c.length)
      simp only [totalLen, List.map_cons, List.sum_cons] at hh ⊢
      omega
    · rw [takeFit_cons_stop width curLen c cs (by omega)]
      simp [totalLen]

theorem takeFit_le (width : Nat) : ∀ (cs : List (List Char)) (curLen : Nat),
    curLen ≤ width → (takeFit width curLen cs).2.1 ≤ width := by
  intro cs
  induction cs with
  | nil => intro curLen h; simpa [takeFit_nil] using h
  | cons c cs ih =>
    intro curLen h
    by_cases hf : curLen + c.length ≤ width
    · rw [takeFit_cons_fit width curLen c cs hf]
      exact ih (curLen + c.length) hf
    · rw [takeFit_cons_stop width curLen c cs (by omega)]
      exact h

theorem takeFit_stop_big (width : Nat) : ∀ (cs : List (List Char)) (curLen : Nat)
    (c : List Char) (r : List (List Char)),
    (takeFit width curLen cs).2.2 = c :: r →
    width < (takeFit width curLen cs).2.1 + c.length := by
  intro cs
  induction cs with
  | nil => intro curLen c r h; simp [takeFit_nil] at h
  | cons d ds ih =>
    intro curLen c r h
    by_cases hf : curLen + d.length ≤ width
    · rw [takeFit_cons_fit width curLen d ds hf] at h ⊢
      exact ih (curLen + d.length) c r h
    · rw [takeFit_cons_stop width curLen d ds (by omega)] at h ⊢
      simp only at h
      injection h with h1 h2
      subst h1
      simp only
      omega

theorem rfindHyphen_lt : ∀ (chunk : List Char) (e : Nat) (h : Nat),
    rfindHyphen chunk e = some h → h < e ∧ h < chunk.length := by
  intro chunk
  induction chunk with
  | nil =>
    intro e h hr
    rcases e with _ | e <;> simp [rfindHyphen] at hr
  | cons c cs ih =>
    intro e h hr
    rcases e with _ | e
    · simp [rfindHyphen] at hr
    · rw [rfindHyphen] at hr
      rcases hrec : rfindHyphen cs e with _ | k
      · rw [hrec] at hr
        by_cases hc : c = '-'
        · rw [if_pos hc] at hr
          have : h = 0 := by
            simpa using hr.symm
          subst this
          simp
        · rw [if_neg hc] at hr
          simp at hr
      · rw [hrec] at hr
        have hk := ih e k hrec
        have : h = k + 1 := by
          simpa using hr.symm
        subst this
        simp only [List.length_cons]
        omega

theorem handle_long_word_append (width curLen : Nat) (chunk : List Char) :
    (handle_long_word width curLen chunk).1 ++ (handle_long_word width curLen chunk).2 = chunk := by
  simp [handle_long_word, List.take_append_drop]

theorem handle_long_word_e_le (width curLen : Nat) (chunk : List Char)
    (hw : 1 ≤ width) :
    (handle_long_word width curLen chunk).1.length ≤ width - curLen := by
  rw [handle_long_word]
  simp only [if_neg (by omega : ¬width < 1)]
  rcases hsp : rfindHyphen chunk (width - curLen) with _ | h
  · by_cases hlt : width - curLen < chunk.length
    · simp only [if_pos hlt, hsp]
      rw [List.length_take]
      exact le_trans (Nat.min_le_left _ _) (by omega)
    · simp only [if_neg hlt, hsp]
      rw [List.length_take]
      exact le_trans (Nat.min_le_left _ _) (by omega)
  · have hb := rfindHyphen_lt chunk (width - curLen) h hsp
    by_cases hlt : width - curLen < chunk.length
    · simp only [if_pos hlt, hsp]
      by_cases hh : (decide (0 < h) && (chunk.take h).any (fun c => !(c = '-' : Bool))) = true
      · simp only [if_pos hh]
        rw [List.length_take]
        exact le_trans (Nat.min_le_left _ _) (Nat.succ_le_of_lt hb.1)
      · simp only [if_neg hh]
        rw [List.length_take]
        exact le_trans (Nat.min_le_left _ _) (by omega)
    · simp only [if_neg hlt, hsp]
      rw [List.length_take]
      exact le_trans (Nat.min_le_left _ _) (by omega)

theorem handle_long_word_rest_ne (width curLen : Nat) (chunk : List Char)
    (hw : 1 ≤ width) (hbig : width < chunk.length) :
    (handle_long_word width curLen chunk).2 ≠ [] := by
  have hap := handle_long_word_append width curLen chunk
  have hle := handle_long_word_e_le width curLen chunk hw
  intro hnil
  rw [hnil, List.append_nil] at hap
  have : chunk.length ≤ width - curLen := by
    rw [← hap]
    exact hle
  omega

theorem handle_long_word_chars (width curLen : Nat) (chunk : List Char) :
    (∀ c ∈ (handle_long_word width curLen chunk).1, c ∈ chunk) ∧
    (∀ c ∈ (handle_long_word width curLen chunk).2, c ∈ chunk) := by
  constructor
  · intro c hc
    rw [handle_long_word] at hc
    exact List.take_subset _ _ hc
  · intro c hc
    rw [handle_long_word] at hc
    exact List.drop_subset _ _ hc

theorem wrapGo_nil (width fuel : Nat) (hasLines : Bool) :
    wrapGo width fuel hasLines [] = [] := by
  rcases fuel with _ | n <;> rfl

theorem wrapGo_cons_some (width n : Nat) (hasLines : Bool) (c : List Char)
    (rest : List (List Char)) (l : List Char) (rem : List (List Char))
    (h : wrapStep width hasLines (c :: rest) = (some l, rem)) :
    wrapGo width (n + 1) hasLines (c :: rest) = l :: wrapGo width n true rem := by
  simp only [wrapGo, h]

theorem wrapGo_cons_none (width n : Nat) (hasLines : Bool) (c : List Char)
    (rest : List (List Char)) (rem : List (List Char))
    (h : wrapStep width hasLines (c :: rest) = (none, rem)) :
    wrapGo width (n + 1) hasLines (c :: rest) = wrapGo width n hasLines rem := by
  simp only [wrapGo, h]

theorem handle_long_word_piece_ne (width : Nat) (chunk : List Char)
    (hw : 1 ≤ width) (hck : chunk ≠ []) :
    (handle_long_word width 0 chunk).1 ≠ [] := by
  rw [handle_long_word]
  simp only [if_neg (by omega : ¬width < 1), Nat.sub_zero]
  have hck1 : 1 ≤ chunk.length := by
    rcases chunk with _ | ⟨x, xs⟩
    · exact absurd rfl hck
    · simp
  have htake : ∀ e : Nat, 1 ≤ e → chunk.take e ≠ [] := by
    intro e he hcon
    have := congrArg List.length hcon
    rw [List.length_take] at this
    simp only [List.length_nil] at this
    omega
  rcases hsp : rfindHyphen chunk width with _ | h
  · by_cases hlt : width < chunk.length
    · simp only [if_pos hlt, hsp]
      exact htake width hw
    · simp only [if_neg hlt, hsp]
      exact htake width hw
  · by_cases hlt : width < chunk.length
    · simp only [if_pos hlt, hsp]
      by_cases hh : (decide (0 < h) && (chunk.take h).any (fun c => !(c = '-' : Bool))) = true
      · simp only [if_pos hh]
        exact htake (h + 1) (by omega)
      · simp only [if_neg hh]
        exact htake width hw
    · simp only [if_neg hlt, hsp]
      exact htake width hw

/-- Chunk lists all of whose members are non-empty and whitespace-free:
the shape of the wordsep split of a whitespace-free text. -/
def GoodChunks (chunks : List (List Char)) : Prop :=
  ∀ c ∈ chunks, c ≠ [] ∧ ∀ ch ∈ c, isPyWS ch = false

theorem chunkIsWS_false_of (c : List Char) (hne : c ≠ [])
    (h : ∀ ch ∈ c, isPyWS ch = false) : chunkIsWS c = false := by
  rcases c with _ | ⟨x, xs⟩
  · exact absurd rfl hne
  · rw [chunkIsWS, List.all_cons, h x (by simp)]
    rfl

theorem totalLen_nil : totalLen [] = 0 := rfl

theorem totalLen_cons (c : List Char) (cs : List (List Char)) :
    totalLen (c :: cs) = c.length + totalLen cs := by
  simp [totalLen]

theorem totalLen_append (a b : List (List Char)) :
    totalLen (a ++ b) = totalLen a + totalLen b := by
  simp [totalLen]

theorem flatten_length_eq_totalLen (l : List (List Char)) :
    l.flatten.length = totalLen l := by
  simp [totalLen, List.length_flatten]

/-- One iteration of the chunk loop on non-empty, whitespace-free chunks:
a non-empty line is always emitted, the emitted characters plus the
remaining chunks are exactly the incoming characters, the line fits the
width, the remaining chunks stay non-empty and whitespace-free, and the
loop measure strictly decreases. -/
theorem wrapStep_sound (width : Nat) (hasLines : Bool) (chunks : List (List Char))
    (hw : 1 ≤ width) (hg : GoodChunks chunks) (hne : chunks ≠ []) :
    ∃ l rem, wrapStep width hasLines chunks = (some l, rem) ∧
      l ++ rem.flatten = chunks.flatten ∧
      l.length ≤ width ∧
      GoodChunks rem ∧
      totalLen rem + rem.length < totalLen chunks + chunks.length := by
  rcases chunks with _ | ⟨c0, r0⟩
  · exact absurd rfl hne
  have hc0 := hg c0 (by simp)
  have hnd : (hasLines && chunkIsWS c0) = false := by
    rw [chunkIsWS_false_of c0 hc0.1 hc0.2, Bool.and_false]
  rw [wrapStep]
  simp only [hnd, Bool.false_eq_true, if_neg, not_false_iff]
  rcases htf : takeFit width 0 (c0 :: r0) with ⟨line1, len1, rest1⟩
  have hsplit := takeFit_split width (c0 :: r0) 0
  rw [htf] at hsplit
  have hlen1 := takeFit_len width (c0 :: r0) 0
  rw [htf] at hlen1
  have hle1 := takeFit_le width (c0 :: r0) 0 (by omega)
  rw [htf] at hle1
  simp only at hsplit hlen1 hle1
  simp only [Nat.zero_add] at hlen1
  have hmem : ∀ x ∈ line1, x ∈ c0 :: r0 := by
    intro x hx
    rw [← hsplit]
    exact List.mem_append.mpr (Or.inl hx)
  have hmemr : ∀ x ∈ rest1, x ∈ c0 :: r0 := by
    intro x hx
    rw [← hsplit]
    exact List.mem_append.mpr (Or.inr hx)
  simp only [htf]
  rcases hrest : rest1 with _ | ⟨c, r⟩
  · -- all chunks fitted on the line
    rw [hrest, List.append_nil] at hsplit
    simp only [hrest]
    have hl1ne : line1 ≠ [] := by
      rw [hsplit]
      simp
    rcases List.eq_nil_or_concat line1 with hl | ⟨l2, lst, hl⟩
    · exact absurd hl hl1ne
    rw [List.concat_eq_append] at hl
    have hlst := hg lst (hmem lst (by rw [hl]; simp))
    rw [hl]
    simp only [List.getLast?_concat]
    rw [chunkIsWS_false_of lst hlst.1 hlst.2]
    simp only [Bool.false_eq_true, if_neg, not_false_iff]
    refine ⟨(l2 ++ [lst]).flatten, [], ?_, ?_, ?_, ?_, ?_⟩
    · rw [if_neg (by simp [List.isEmpty_iff])]
    · rw [← hl, hsplit]
      simp
    · rw [flatten_length_eq_totalLen, ← hl, ← hlen1]
      exact hle1
    · intro x hx
      simp at hx
    · rw [totalLen_nil, List.length_nil, List.length_cons]
      omega
  · -- a chunk did not fit on the current line
    have hstop := takeFit_stop_big width (c0 :: r0) 0 c r (by rw [htf, hrest])
    rw [htf] at hstop
    simp only at hstop
    rw [hrest] at hsplit hmemr
    simp only [hrest]
    have hcg := hg c (hmemr c (by simp))
    have hfl : totalLen (c0 :: r0) = totalLen line1 + (c.length + totalLen r) := by
      rw [← hsplit, totalLen_append, totalLen_cons]
    have hll : (c0 :: r0).length = line1.length + (1 + r.length) := by
      rw [← hsplit, List.length_append, List.length_cons]
      omega
    by_cases hbig : width < c.length
    · -- the pending chunk is longer than the whole width: break it
      rcases hhw : handle_long_word width len1 c with ⟨piece, restc⟩
      have happ := handle_long_word_append width len1 c
      rw [hhw] at happ
      have hple := handle_long_word_e_le width len1 c hw
      rw [hhw] at hple
      have hrne := handle_long_word_rest_ne width len1 c hw hbig
      rw [hhw] at hrne
      have hchars := handle_long_word_chars width len1 c
      rw [hhw] at hchars
      simp only at happ hple hrne hchars
      simp only [if_pos hbig, hhw]
      by_cases hpe : piece = []
      · -- the broken-off piece is empty and is dropped again
        have hrc : restc = c := by
          rw [hpe, List.nil_append] at happ
          exact happ
        have hl1ne : line1 ≠ [] := by
          intro hcon
          have h0 : len1 = 0 := by
            rw [hcon, totalLen_nil] at hlen1
            exact hlen1
          have hpne := handle_long_word_piece_ne width c hw hcg.1
          rw [← h0, hhw] at hpne
          exact hpne hpe
        rw [hpe]
        simp only [List.getLast?_concat]
        rw [show chunkIsWS [] = true from rfl]
        simp only [if_pos, List.dropLast_concat]
        refine ⟨line1.flatten, restc :: r, ?_, ?_, ?_, ?_, ?_⟩
        · rw [if_neg (by simpa [List.isEmpty_iff] using hl1ne)]
        · rw [hrc, ← hsplit]
          simp [List.flatten_append]
        · rw [flatten_length_eq_totalLen, ← hlen1]
          exact hle1
        · intro x hx
          rcases List.mem_cons.mp hx with hx | hx
          · rw [hx, hrc]
            exact hcg
          · exact hg x (hmemr x (by simp [hx]))
        · have hl1pos : 1 ≤ line1.length := by
            rcases line1 with _ | ⟨y, ys⟩
            · exact absurd rfl hl1ne
            · simp
          rw [totalLen_cons, List.length_cons, hrc]
          omega
      · -- a non-empty piece is broken off the long chunk
        have hpws : chunkIsWS piece = false := by
          refine chunkIsWS_false_of piece hpe ?_
          intro ch hch
          exact hcg.2 ch (hchars.1 ch hch)
        simp only [List.getLast?_concat]
        rw [hpws]
        simp only [Bool.false_eq_true, if_neg, not_false_iff]
        refine ⟨(line1 ++ [piece]).flatten, restc :: r, ?_, ?_, ?_, ?_, ?_⟩
        · rw [if_neg (by simp [List.isEmpty_iff])]
        · rw [← hsplit]
          simp only [List.flatten_append, List.flatten_cons, List.flatten_nil,
            List.append_nil, List.append_assoc]
          rw [← happ]
          simp [List.append_assoc]
        · rw [flatten_length_eq_totalLen, totalLen_append, totalLen_cons,
            totalLen_nil, ← hlen1]
          omega
        · intro x hx
          rcases List.mem_cons.mp hx with hx | hx
          · rw [hx]
            refine ⟨hrne, ?_⟩
            intro ch hch
            exact hcg.2 ch (hchars.2 ch hch)
          · exact hg x (hmemr x (by simp [hx]))
        · have hppos : 1 ≤ piece.length := by
            rcases piece with _ | ⟨y, ys⟩
            · exact absurd rfl hpe
            · simp
          have hrlen : piece.length + restc.length = c.length := by
            have h2 := congrArg List.length happ
            rw [List.length_append] at h2
            exact h2
          rw [totalLen_cons, List.length_cons]
          omega
    · -- the pending chunk would fit on a line of its own later
      simp only [if_neg hbig]
      have hl1ne : line1 ≠ [] := by
        intro hcon
        rw [hcon, totalLen_nil] at hlen1
        omega
      rcases List.eq_nil_or_concat line1 with hl | ⟨l2, lst, hl⟩
      · exact absurd hl hl1ne
      rw [List.concat_eq_append] at hl
      have hlst := hg lst (hmem lst (by rw [hl]; simp))
      rw [hl]
      simp only [List.getLast?_concat]
      rw [chunkIsWS_false_of lst hlst.1 hlst.2]
      simp only [Bool.false_eq_true, if_neg, not_false_iff]
      refine ⟨(l2 ++ [lst]).flatten, c :: r, ?_, ?_, ?_, ?_, ?_⟩
      · rw [if_neg (by simp [List.isEmpty_iff])]
      · rw [← hl, ← hsplit]
        simp [List.flatten_append]
      · rw [flatten_length_eq_totalLen, ← hl, ← hlen1]
        exact hle1
      · intro x hx
        exact hg x (hmemr x hx)
      · have hl1pos : 1 ≤ line1.length := by
          rcases line1 with _ | ⟨y, ys⟩
          · exact absurd rfl hl1ne
          · simp
        rw [totalLen_cons, List.length_cons]
        omega

/-- The chunk loop on non-empty whitespace-free chunks: the emitted lines
concatenate to exactly the input characters and each line fits the
width. -/
theorem wrapGo_sound (width : Nat) : ∀ (fuel : Nat) (hasLines : Bool)
    (chunks : List (List Char)),
    1 ≤ width → GoodChunks chunks → totalLen chunks + chunks.length < fuel →
    (wrapGo width fuel hasLines chunks).flatten = chunks.flatten ∧
    ∀ l ∈ wrapGo width fuel hasLines chunks, l.length ≤ width := by
  intro fuel
  induction fuel with
  | zero =>
    intro hasLines chunks hw hg hm
    omega
  | succ n ih =>
    intro hasLines chunks hw hg hm
    rcases chunks with _ | ⟨c0, r0⟩
    · rw [wrapGo_nil]
      exact ⟨rfl, by intro l hl; simp at hl⟩
    · obtain ⟨l, rem, hstep, hflat, hlen, hgood, hmeas⟩ :=
        wrapStep_sound width hasLines (c0 :: r0) hw hg (by simp)
      rw [wrapGo_cons_some width n hasLines c0 r0 l rem hstep]
      have hih := ih true rem hw hgood (by omega)
      constructor
      · rw [List.flatten_cons, hih.1, hflat]
      · intro l2 hl2
        rcases List.mem_cons.mp hl2 with hl2 | hl2
        · rw [hl2]
          exact hlen
        · exact hih.2 l2 hl2

/-- textwrap of a whitespace-free text: the lines concatenate exactly to
the text and every line is at most `width` characters long. -/
theorem wrap_noWS (width : Nat) (text : List Char) (hw : 1 ≤ width)
    (h : ∀ c ∈ text, isPyWS c = false) :
    (wrap width text).flatten = text ∧ ∀ l ∈ wrap width text, l.length ≤ width := by
  have hmunge : munge_whitespace text = text :=
    munge_id text (fun c hc => Or.inl (h c hc))
  have hchunks : GoodChunks (split text) := split_chunks_sound text h
  have hgo := wrapGo_sound width (totalLen (split text) + (split text).length + 1)
    false (split text) hw hchunks (by omega)
  rw [wrap, hmunge, wrap_chunks]
  rw [split_flatten] at hgo
  exact hgo

theorem chunkIsWS_replicate_space (n : Nat) :
    chunkIsWS (List.replicate n ' ') = true := by
  rw [chunkIsWS, List.all_eq_true]
  intro x hx
  rw [List.eq_of_mem_replicate hx]
  rfl

theorem rfindHyphen_no_hyphen : ∀ (chunk : List Char),
    (∀ c ∈ chunk, ¬c = '-') → ∀ e, rfindHyphen chunk e = none := by
  intro chunk
  induction chunk with
  | nil =>
    intro _ e
    rcases e with _ | e <;> rfl
  | cons c cs ih =>
    intro h e
    rcases e with _ | e
    · rfl
    · rw [rfindHyphen, ih (fun d hd => h d (by simp [hd])) e]
      rw [if_neg (h c (by simp))]

/-- Breaking a long chunk that contains no hyphen cuts it exactly at the
available space. -/
theorem handle_long_word_no_hyphen (width curLen : Nat) (chunk : List Char)
    (hw : ¬width < 1) (hnh : ∀ c ∈ chunk, ¬c = '-')
    (hbig : width - curLen < chunk.length) :
    handle_long_word width curLen chunk =
      (chunk.take (width - curLen), chunk.drop (width - curLen)) := by
  rw [handle_long_word]
  simp only [if_neg hw]
  rw [rfindHyphen_no_hyphen chunk hnh (width - curLen)]
  rw [if_pos hbig]

theorem handle_long_word_spaces :
    handle_long_word 25000 0 (List.replicate 25001 ' ') =
      (List.replicate 25000 ' ', List.replicate 1 ' ') := by
  rw [handle_long_word_no_hyphen 25000 0 (List.replicate 25001 ' ')
    (by omega) (fun c hc => by rw [List.eq_of_mem_replicate hc]; decide)
    (by rw [List.length_replicate]; omega)]
  rw [show (25000 - 0 : Nat) = 25000 from rfl]
  rw [List.take_replicate, List.drop_replicate]
  rfl

/-- Shape lemma: one over-width chunk whose broken-off piece is all
whitespace gives no line; the remainder chunk survives. -/
theorem wrapStep_single_long_wsdrop (width : Nat) (hasLines : Bool)
    (W piece restc : List Char)
    (hnd : (hasLines && chunkIsWS W) = false)
    (hbig : width < W.length)
    (hhw : handle_long_word width 0 W = (piece, restc))
    (hpws : chunkIsWS piece = true) :
    wrapStep width hasLines [W] = (none, [restc]) := by
  rw [wrapStep]
  simp only [hnd, Bool.false_eq_true, if_neg, not_false_iff]
  have htf : takeFit width 0 [W] = ([], 0, [W]) :=
    takeFit_cons_stop width 0 W [] (by omega)
  simp only [htf]
  rw [if_pos hbig]
  simp only [hhw, List.nil_append]
  simp only [show ([piece] : List (List Char)).getLast? = some piece from rfl,
    hpws, if_pos]
  rfl

/-- Shape lemma: a single all-whitespace chunk that fits is dropped from
the end of the line, emitting nothing. -/
theorem wrapStep_single_ws_fit (width : Nat) (hasLines : Bool) (S : List Char)
    (hnd : (hasLines && chunkIsWS S) = false)
    (hfit : 0 + S.length ≤ width)
    (hws : chunkIsWS S = true) :
    wrapStep width hasLines [S] = (none, []) := by
  rw [wrapStep]
  simp only [hnd, Bool.false_eq_true, if_neg, not_false_iff]
  have htf : takeFit width 0 [S] = ([S], 0 + S.length, []) := by
    rw [takeFit_cons_fit width 0 S [] hfit]
    rfl
  simp only [htf]
  simp only [show ([S] : List (List Char)).getLast? = some S from rfl,
    hws, if_pos]
  rfl

/-- Shape lemma: two chunks fit, the third does not but is not over-width;
the trailing whitespace chunk is dropped and the first chunk is the
line. -/
theorem wrapStep_two_fit_drop (width : Nat) (hasLines : Bool) (A S B : List Char)
    (hnd : (hasLines && chunkIsWS A) = false)
    (hfit1 : 0 + A.length ≤ width)
    (hfit2 : 0 + A.length + S.length ≤ width)
    (hstop : width < 0 + A.length + S.length + B.length)
    (hsmall : ¬width < B.length)
    (hws : chunkIsWS S = true) :
    wrapStep width hasLines [A, S, B] = (some ([A] : List (List Char)).flatten, [B]) := by
  rw [wrapStep]
  simp only [hnd, Bool.false_eq_true, if_neg, not_false_iff]
  have htf : takeFit width 0 [A, S, B] = ([A, S], 0 + A.length + S.length, [B]) := by
    rw [takeFit_cons_fit width 0 A [S, B] hfit1]
    rw [takeFit_cons_fit width (0 + A.length) S [B] hfit2]
    rw [takeFit_cons_stop width (0 + A.length + S.length) B [] (by omega)]
  simp only [htf]
  rw [if_neg hsmall]
  simp only [show ([A, S] : List (List Char)).getLast? = some S from rfl,
    hws, if_pos]
  rfl

/-- Shape lemma: a single fitting non-whitespace chunk becomes the
line. -/
theorem wrapStep_single_word_fit (width : Nat) (hasLines : Bool) (B : List Char)
    (hnd : (hasLines && chunkIsWS B) = false)
    (hfit : 0 + B.length ≤ width)
    (hnws : chunkIsWS B = false) :
    wrapStep width hasLines [B] = (some ([B] : List (List Char)).flatten, []) := by
  rw [wrapStep]
  simp only [hnd, Bool.false_eq_true, if_neg, not_false_iff]
  have htf : takeFit width 0 [B] = ([B], 0 + B.length, []) := by
    rw [takeFit_cons_fit width 0 B [] hfit]
    rfl
  simp only [htf]
  simp only [show ([B] : List (List Char)).getLast? = some B from rfl,
    hnws, Bool.false_eq_true, if_neg, not_false_iff]
  rfl

/-- textwrap drops an all-whitespace text entirely: wrapping 25001 spaces
at width 25000 produces no lines at all. -/
theorem wrap_spaces : wrap 25000 (List.replicate 25001 ' ') = [] := by
  have hmunge : munge_whitespace (List.replicate 25001 ' ') =
      List.replicate 25001 ' ' :=
    munge_id _ (fun c hc => Or.inr (List.eq_of_mem_replicate hc))
  rw [wrap, hmunge, split_spaces, wrap_chunks]
  have hfuel : totalLen [List.replicate 25001 ' '] +
      [List.replicate 25001 ' '].length + 1 = 25002 + 1 := by
    rw [totalLen_cons, totalLen_nil, List.length_replicate]
    rfl
  rw [hfuel]
  have hs1 : wrapStep 25000 false [List.replicate 25001 ' '] =
      (none, [List.replicate 1 ' ']) := by
    refine wrapStep_single_long_wsdrop 25000 false _ _ _ rfl ?_
      handle_long_word_spaces (chunkIsWS_replicate_space 25000)
    rw [List.length_replicate]
    omega
  rw [wrapGo_cons_none 25000 25002 false _ [] _ hs1]
  rw [show (25002 : Nat) = 25001 + 1 from rfl]
  have hs2 : wrapStep 25000 false [List.replicate 1 ' '] = (none, []) := by
    refine wrapStep_single_ws_fit 25000 false _ rfl ?_
      (chunkIsWS_replicate_space 1)
    rw [List.length_replicate]
    omega
  rw [wrapGo_cons_none 25000 25001 false _ [] _ hs2]
  exact wrapGo_nil 25000 25001 false

/-- textwrap drops the boundary space of the counterexample text: the
25001-character text of a 24999-letter word, a space, and one letter wraps
into two windows whose concatenation has only 25000 characters. -/
theorem wrap_T0 :
    wrap 25000 (List.replicate 24999 'a' ++ ' ' :: ['b']) =
      [List.replicate 24999 'a', ['b']] := by
  have hmunge : munge_whitespace (List.replicate 24999 'a' ++ ' ' :: ['b']) =
      List.replicate 24999 'a' ++ ' ' :: ['b'] := by
    refine munge_id _ ?_
    intro c hc
    rcases List.mem_append.mp hc with h | h
    · left
      rw [List.eq_of_mem_replicate h]
      rfl
    · rcases List.mem_cons.mp h with h | h
      · right
        exact h
      · left
        rcases List.mem_cons.mp h with h | h
        · rw [h]
          rfl
        · simp at h
  rw [wrap, hmunge, split_T0, wrap_chunks]
  have hfuel : totalLen [List.replicate 24999 'a', [' '], ['b']] +
      [List.replicate 24999 'a', [' '], ['b']].length + 1 = 25004 + 1 := by
    rw [totalLen_cons, totalLen_cons, totalLen_cons, totalLen_nil,
      List.length_replicate]
    rfl
  rw [hfuel]
  have hs1 : wrapStep 25000 false [List.replicate 24999 'a', [' '], ['b']] =
      (some ([List.replicate 24999 'a'] : List (List Char)).flatten, [['b']]) := by
    refine wrapStep_two_fit_drop 25000 false _ _ _ rfl ?_ ?_ ?_ ?_ rfl
    · rw [List.length_replicate]
      decide
    · rw [List.length_replicate]
      decide
    · rw [List.length_replicate]
      decide
    · decide
  rw [wrapGo_cons_some 25000 25004 false _ _ _ _ hs1]
  rw [show (25004 : Nat) = 25003 + 1 from rfl]
  have hs2 : wrapStep 25000 true [(['b'] : List Char)] =
      (some ([(['b'] : List Char)] : List (List Char)).flatten, []) := by
    exact wrapStep_single_word_fit 25000 true ['b'] (by decide) (by decide) (by decide)
  rw [wrapGo_cons_some 25000 25003 true _ _ _ _ hs2]
  rw [wrapGo_nil]
  rw [show ([List.replicate 24999 'a'] : List (List Char)).flatten =
    List.replicate 24999 'a' by rw [List.flatten_cons, List.flatten_nil, List.append_nil]]
  rw [show ([(['b'] : List Char)] : List (List Char)).flatten = ['b'] from rfl]

end Textwrap

namespace Guardrails

/-- The two values of the per-violation `action` field relevant to the
notebook (`BLOCKED` blocks the request; PII findings may instead carry
`ANONYMIZED`; topics and filters may carry `NONE`). -/
inductive ViolationAction
  | BLOCKED
  | ANONYMIZED
  | NONE
deriving DecidableEq, Repr

/-- One finding inside a policy assessment; only its `action` field is
inspected by the notebook. -/
structure Violation where
  action : ViolationAction
deriving DecidableEq, Repr

/-- The `wordPolicy` part of an assessment: both member lists are
optional. -/
structure WordPolicyAssessment where
  customWords : Option (List Violation)
  managedWordLists : Option (List Violation)
deriving DecidableEq, Repr

/-- The `sensitiveInformationPolicy` part of an assessment. -/
structure SensitiveInfoAssessment where
  piiEntities : Option (List Violation)
  regexes : Option (List Violation)
deriving DecidableEq, Repr

/-- One policy assessment of the ApplyGuardrail response; each policy key
is optional, exactly as the notebook tests membership with `in`. -/
structure Assessment where
  topicPolicy : Option (List Violation)
  wordPolicy : Option WordPolicyAssessment
  sensitiveInformationPolicy : Option SensitiveInfoAssessment
  contentPolicy : Option (List Violation)
deriving DecidableEq, Repr

/-- The top-level `action` of an ApplyGuardrail response. -/
inductive GuardrailAction
  | NONE
  | GUARDRAIL_INTERVENED
deriving DecidableEq, Repr

/-- The parts of the ApplyGuardrail response the notebook reads: the
action, the output texts, and the assessments. -/
structure GuardrailResponse where
  action : GuardrailAction
  outputs : List (List Char)
  assessments : List Assessment
deriving DecidableEq, Repr

/-- The external ApplyGuardrail endpoint, as a parameter: the service is
stateless from the perspective of the notebook, so it is a function from
the submitted text to the response. -/
def Service : Type := List Char → GuardrailResponse

/-- `TEXT_UNIT = 1000` characters. -/
def TEXT_UNIT : Nat := 1000

/-- `LIMIT_TEXT_UNIT = 25` text units per ApplyGuardrail call. -/
def LIMIT_TEXT_UNIT : Nat := 25

/-- `check_severe_violations`: Python sums the booleans
`violation[action] == BLOCKED`, counting the blocking violations. -/
def check_severe_violations (violations : List Violation) : Nat :=
  (violations.map
    (fun v => if v.action = ViolationAction.BLOCKED then 1 else 0)).sum

/-- The per-policy violation lists visited, in order, by
`is_policy_assessement_blocked` for one assessment: topics, custom words,
managed word lists, PII entities, regexes, content filters — each only
when present. -/
def assessmentViolationLists (a : Assessment) : List (List Violation) :=
  (match a.topicPolicy with
   | some topics => [topics]
   | none => []) ++
  (match a.wordPolicy with
   | some w =>
     (match w.customWords with
      | some vs => [vs]
      | none => []) ++
     (match w.managedWordLists with
      | some vs => [vs]
      | none => [])
   | none => []) ++
  (match a.sensitiveInformationPolicy with
   | some s =>
     (match s.piiEntities with
      | some vs => [vs]
      | none => []) ++
     (match s.regexes with
      | some vs => [vs]
      | none => [])
   | none => []) ++
  (match a.contentPolicy with
   | some filters => [filters]
   | none => [])

/-- `is_policy_assessement_blocked`: collect the severe-violation count of
every per-policy list of every assessment and block iff their sum is
positive. -/
def is_policy_assessement_blocked (assessments : List Assessment) : Bool :=
  decide (0 <
    ((assessments.map
      (fun a => (assessmentViolationLists a).map check_severe_violations)).flatten).sum)

/-- Python `" ".join`, used on the response output texts. -/
def joinSpace : List (List Char) → List Char
  | [] => []
  | [x] => x
  | x :: xs => x ++ ' ' :: joinSpace xs

/-- `apply_guardrail`: submit the text and interpret the response.  On
intervention the blocked verdict comes from the assessments and the
replacement text from the joined outputs; otherwise the original text is
returned unchanged.  There is no local length validation of any kind. -/
def apply_guardrail (service : Service) (text : List Char) :
    Bool × List Char × GuardrailResponse :=
  let response := service text
  if response.action = GuardrailAction.GUARDRAIL_INTERVENED then
    (is_policy_assessement_blocked response.assessments,
     joinSpace response.outputs, response)
  else
    (false, text, response)

/-- The chunk loop of `apply_guardrail_full_text`, instrumented with the
list of texts submitted to the service (second component, in order).  The
Python loop leaves `is_blocked` and `response` unassigned when the chunk
list is empty, so the following `return` raises `UnboundLocalError`:
modelled as `none`. -/
def chunkLoop (service : Service) (filtered : List Char) :
    List (List Char) →
      Option (Bool × List Char × GuardrailResponse) × List (List Char)
  | [] => (none, [])
  | chunk :: rest =>
    let r := apply_guardrail service chunk
    if r.1 then
      (some (true, r.2.1, r.2.2), [chunk])
    else
      match rest with
      | [] => (some (false, filtered ++ r.2.1, r.2.2), [chunk])
      | _ :: _ =>
        let t := chunkLoop service (filtered ++ r.2.1) rest
        (t.1, chunk :: t.2)

/-- `apply_guardrail_full_text`, instrumented with the list of service
calls made (second component).  Texts within the quota go to
`apply_guardrail` directly; longer texts are wrapped at
`LIMIT_TEXT_UNIT * TEXT_UNIT` characters and the chunks evaluated in
order with short-circuit on a blocking verdict. -/
def apply_guardrail_full_text (service : Service) (text : List Char) :
    Option (Bool × List Char × GuardrailResponse) × List (List Char) :=
  if text.length ≤ LIMIT_TEXT_UNIT * TEXT_UNIT then
    (some (apply_guardrail service text), [text])
  else
    chunkLoop service [] (Textwrap.wrap (LIMIT_TEXT_UNIT * TEXT_UNIT) text)

/-- Stop reasons of the converse stream: the notebook only distinguishes
`GUARDRAIL_INTERVENED` (also the value it injects itself on a blocking
flush) from every other reason, modelled by `endTurn`. -/
inductive StopReason
  | endTurn
  | guardrailIntervened
deriving DecidableEq, Repr

/-- One event of the converse stream.  A `contentBlockDelta` carrying
`none` models an event whose `delta.text` field is missing (reading it
raises `KeyError` in the Python code).  `metadata` covers the
telemetry-only events, which only print. -/
inductive StreamEvent
  | messageStart
  | contentBlockDelta (text : Option (List Char))
  | messageStop (reason : StopReason)
  | metadata
deriving DecidableEq, Repr

/-- The mutable state of the `stream_conversation` loop.  `calls` is
instrumentation: the list of texts passed to `apply_guardrail`, in
order. -/
structure StreamState where
  full_text : List Char
  buffer_text : List Char
  applied_guardrails : List GuardrailResponse
  calls : List (List Char)
deriving DecidableEq, Repr

/-- The state at loop entry: empty accumulators. -/
def initState : StreamState := ⟨[], [], [], []⟩

/-- Result of processing one event: continue with the new state, leave the
loop (a `break`), or crash with an uncaught exception. -/
inductive StepResult
  | next (s : StreamState)
  | halted (s : StreamState)
  | crashed
deriving DecidableEq, Repr

/-- One iteration of the event loop of `stream_conversation`.  On a delta
that pushes the buffer past `TEXT_UNIT`, the pre-delta buffer is
evaluated; on a blocking verdict the code injects a messageStop event with
reason GUARDRAIL_INTERVENED into the same iteration, whose handler breaks,
and `full_text` is replaced (not appended).  A messageStop with any other
reason evaluates the current buffer once more; its replacement text is not
appended to `full_text`, and its response is recorded only when
blocking. -/
def processEvent (service : Service) (s : StreamState) :
    StreamEvent → StepResult
  | StreamEvent.messageStart => StepResult.next s
  | StreamEvent.contentBlockDelta none => StepResult.crashed
  | StreamEvent.contentBlockDelta (some new_text) =>
    if TEXT_UNIT < (s.buffer_text ++ new_text).length then
      let r := apply_guardrail service s.buffer_text
      if r.1 then
        StepResult.halted
          { full_text := r.2.1
            buffer_text := new_text
            applied_guardrails := s.applied_guardrails ++ [r.2.2]
            calls := s.calls ++ [s.buffer_text] }
      else
        StepResult.next
          { full_text := s.full_text ++ r.2.1
            buffer_text := new_text
            applied_guardrails := s.applied_guardrails ++ [r.2.2]
            calls := s.calls ++ [s.buffer_text] }
    else
      StepResult.next { s with buffer_text := s.buffer_text ++ new_text }
  | StreamEvent.messageStop reason =>
    if reason = StopReason.guardrailIntervened then
      StepResult.halted s
    else
      let r := apply_guardrail service s.buffer_text
      if r.1 then
        StepResult.next { s with
          applied_guardrails := s.applied_guardrails ++ [r.2.2],
          calls := s.calls ++ [s.buffer_text] }
      else
        StepResult.next { s with calls := s.calls ++ [s.buffer_text] }
  | StreamEvent.metadata => StepResult.next s

/-- Result of running the loop over a list of events. -/
inductive RunResult
  | running (s : StreamState)
  | halted (s : StreamState)
  | crashed
deriving DecidableEq, Repr

/-- The event loop: process events in order, stopping at a `break` and
aborting on a crash. -/
def runEvents (service : Service) : StreamState → List StreamEvent → RunResult
  | s, [] => RunResult.running s
  | s, e :: es =>
    match processEvent service s e with
    | StepResult.next s2 => runEvents service s2 es
    | StepResult.halted s2 => RunResult.halted s2
    | StepResult.crashed => RunResult.crashed

/-- `stream_conversation`: run the event loop from the empty state and
return `(full_text, applied_guardrails)`; `none` models the uncaught
`KeyError` on a malformed delta event. -/
def stream_conversation (service : Service) (events : List StreamEvent) :
    Option (List Char × List GuardrailResponse) :=
  match runEvents service initState events with
  | RunResult.running s => some (s.full_text, s.applied_guardrails)
  | RunResult.halted s => some (s.full_text, s.applied_guardrails)
  | RunResult.crashed => none

end Guardrails

namespace Guardrails

/-- A response with no intervention. -/
def cleanResponse : GuardrailResponse := ⟨GuardrailAction.NONE, [], []⟩

/-- A service that never intervenes. -/
def cleanService : Service := fun _ => cleanResponse

/-- An assessment with one blocking content-filter finding. -/
def blockedAssessment : Assessment :=
  ⟨none, none, none, some [⟨ViolationAction.BLOCKED⟩]⟩

/-- An intervened response whose single finding blocks. -/
def blockedResponse : GuardrailResponse :=
  ⟨GuardrailAction.GUARDRAIL_INTERVENED, ["BLOCKED".data], [blockedAssessment]⟩

/-- A service that blocks everything. -/
def blockService : Service := fun _ => blockedResponse

/-- A service that blocks exactly the texts starting with the letter b. -/
def blockOnB : Service := fun t =>
  if t.head? = some 'b' then blockedResponse else cleanResponse

/-- All findings reachable by the traversal of
`is_policy_assessement_blocked`, flattened in order. -/
def findingsOf (assessments : List Assessment) : List Violation :=
  ((assessments.map assessmentViolationLists).flatten).flatten

/-- Reference count of the threshold-triggered flushes of the stream loop:
fold the deltas through the buffer rule (flush when the buffer plus the
delta exceeds one text unit; the delta then seeds the next buffer). -/
def thresholdFlushes : List Char → List (List Char) → Nat
  | _, [] => 0
  | buf, d :: ds =>
    if TEXT_UNIT < (buf ++ d).length then thresholdFlushes d ds + 1
    else thresholdFlushes (buf ++ d) ds

theorem apply_guardrail_of_none (service : Service) (t : List Char)
    (h : (service t).action = GuardrailAction.NONE) :
    apply_guardrail service t = (false, t, service t) := by
  rw [apply_guardrail, if_neg]
  rw [h]
  intro hc
  cases hc

theorem apply_guardrail_clean (t : List Char) :
    apply_guardrail cleanService t = (false, t, cleanResponse) := rfl

theorem apply_guardrail_block (t : List Char) :
    apply_guardrail blockService t = (true, "BLOCKED".data, blockedResponse) := rfl

theorem head?_replicate_succ {α : Type} (n : Nat) (a : α) :
    (List.replicate (n + 1) a).head? = some a := by
  rw [List.replicate_succ]
  rfl

theorem blockOnB_clean (t : List Char) (h : ¬t.head? = some 'b') :
    apply_guardrail blockOnB t = (false, t, cleanResponse) := by
  have hb : blockOnB t = cleanResponse := by
    rw [blockOnB, if_neg h]
  rw [apply_guardrail, hb, if_neg (by decide)]

theorem blockOnB_blocked (t : List Char) (h : t.head? = some 'b') :
    apply_guardrail blockOnB t = (true, "BLOCKED".data, blockedResponse) := by
  have hb : blockOnB t = blockedResponse := by
    rw [blockOnB, if_pos h]
  rw [apply_guardrail, hb, if_pos (by decide)]
  rfl

theorem check_severe_pos (vs : List Violation) :
    0 < check_severe_violations vs ↔
      ∃ v ∈ vs, v.action = ViolationAction.BLOCKED := by
  rw [check_severe_violations, Nat.pos_iff_ne_zero, Ne, List.sum_eq_zero_iff]
  constructor
  · intro h
    by_contra hcon
    push_neg at hcon
    apply h
    intro x hx
    rcases List.mem_map.mp hx with ⟨v, hv, hxv⟩
    rw [← hxv, if_neg (hcon v hv)]
  · rintro ⟨v, hv, hb⟩ h
    have := h 1 (List.mem_map.mpr ⟨v, hv, by rw [if_pos hb]⟩)
    cases this

/-- The blocked verdict of `is_policy_assessement_blocked` holds exactly
when some finding across the visited sub-policy lists carries the BLOCKED
action. -/
theorem is_policy_blocked_iff (A : List Assessment) :
    is_policy_assessement_blocked A = true ↔
      ∃ v ∈ findingsOf A, v.action = ViolationAction.BLOCKED := by
  rw [is_policy_assessement_blocked, decide_eq_true_eq, findingsOf]
  rw [Nat.pos_iff_ne_zero, Ne, List.sum_eq_zero_iff]
  constructor
  · intro h
    by_contra hcon
    push_neg at hcon
    apply h
    intro x hx
    rcases List.mem_flatten.mp hx with ⟨counts, hcounts, hxc⟩
    rcases List.mem_map.mp hcounts with ⟨a, ha, hac⟩
    rw [← hac] at hxc
    rcases List.mem_map.mp hxc with ⟨vs, hvs, hvx⟩
    rw [← hvx]
    by_contra hpos
    have hpos2 : 0 < check_severe_violations vs := Nat.pos_of_ne_zero hpos
    rcases (check_severe_pos vs).mp hpos2 with ⟨v, hv, hb⟩
    refine hcon v ?_ hb
    rw [List.mem_flatten]
    refine ⟨vs, ?_, hv⟩
    rw [List.mem_flatten]
    exact ⟨assessmentViolationLists a, List.mem_map.mpr ⟨a, ha, rfl⟩, hvs⟩
  · rintro ⟨v, hv, hb⟩ h
    rcases List.mem_flatten.mp hv with ⟨vs, hvs, hvmem⟩
    rcases List.mem_flatten.mp hvs with ⟨ls, hls, hvsmem⟩
    rcases List.mem_map.mp hls with ⟨a, ha, hal⟩
    have hx : check_severe_violations vs ∈
        (A.map (fun a => (assessmentViolationLists a).map check_severe_violations)).flatten := by
      rw [List.mem_flatten]
      refine ⟨(assessmentViolationLists a).map check_severe_violations,
        List.mem_map.mpr ⟨a, ha, rfl⟩, ?_⟩
      refine List.mem_map.mpr ⟨vs, ?_, rfl⟩
      rw [hal]
      exact hvsmem
    have := h (check_severe_violations vs) hx
    rcases (check_severe_pos vs).mpr ⟨v, hvmem, hb⟩ with hpos
    omega

theorem chunkLoop_cons_blocked (service : Service) (acc chunk : List Char)
    (rest : List (List Char))
    (hb : (apply_guardrail service chunk).1 = true) :
    chunkLoop service acc (chunk :: rest) =
      (some (true, (apply_guardrail service chunk).2.1,
        (apply_guardrail service chunk).2.2), [chunk]) := by
  simp only [chunkLoop]
  rw [if_pos hb]

theorem chunkLoop_single_notblocked (service : Service) (acc chunk : List Char)
    (hnb : (apply_guardrail service chunk).1 = false) :
    chunkLoop service acc [chunk] =
      (some (false, acc ++ (apply_guardrail service chunk).2.1,
        (apply_guardrail service chunk).2.2), [chunk]) := by
  simp only [chunkLoop]
  rw [if_neg (by rw [hnb]; intro h; cases h)]

theorem chunkLoop_cons_notblocked (service : Service) (acc chunk : List Char)
    (q : List Char) (qs : List (List Char))
    (hnb : (apply_guardrail service chunk).1 = false) :
    chunkLoop service acc (chunk :: q :: qs) =
      ((chunkLoop service (acc ++ (apply_guardrail service chunk).2.1) (q :: qs)).1,
       chunk :: (chunkLoop service (acc ++ (apply_guardrail service chunk).2.1) (q :: qs)).2) := by
  simp only [chunkLoop]
  rw [if_neg (by rw [hnb]; intro h; cases h)]

/-- The chunk loop with no blocking chunk: every chunk is evaluated in
order and the replacement texts accumulate. -/
theorem chunkLoop_clean (service : Service) :
    ∀ (chunks : List (List Char)) (acc : List Char) (hne : chunks ≠ []),
    (∀ d ∈ chunks, (apply_guardrail service d).1 = false) →
    chunkLoop service acc chunks =
      (some (false,
        acc ++ (chunks.map (fun d => (apply_guardrail service d).2.1)).flatten,
        (apply_guardrail service (chunks.getLast hne)).2.2), chunks) := by
  intro chunks
  induction chunks with
  | nil => intro acc hne _; exact absurd rfl hne
  | cons c rest ih =>
    intro acc hne hall
    rcases rest with _ | ⟨q, qs⟩
    · rw [chunkLoop_single_notblocked service acc c (hall c (by simp))]
      simp [List.flatten_cons]
    · rw [chunkLoop_cons_notblocked service acc c q qs (hall c (by simp))]
      rw [ih (acc ++ (apply_guardrail service c).2.1) (by simp)
        (fun d hd => hall d (by simp [hd]))]
      have hlast : (c :: q :: qs).getLast hne = (q :: qs).getLast (by simp) :=
        List.getLast_cons _
      rw [hlast]
      simp [List.flatten_cons, List.append_assoc]

/-- The chunk loop stops at the first blocking chunk: only the preceding
chunks and the blocking one are evaluated, and the result is the blocking
verdict alone. -/
theorem chunkLoop_blocked_prefix (service : Service) :
    ∀ (pre : List (List Char)) (c : List Char) (post : List (List Char))
      (acc : List Char),
    (∀ d ∈ pre, (apply_guardrail service d).1 = false) →
    (apply_guardrail service c).1 = true →
    chunkLoop service acc (pre ++ c :: post) =
      (some (true, (apply_guardrail service c).2.1,
        (apply_guardrail service c).2.2), pre ++ [c]) := by
  intro pre
  induction pre with
  | nil =>
    intro c post acc _ hb
    rw [List.nil_append, chunkLoop_cons_blocked service acc c post hb]
    rfl
  | cons p ps ih =>
    intro c post acc hpre hb
    rcases hps : ps ++ c :: post with _ | ⟨q, qs⟩
    · exact absurd hps (List.append_ne_nil_of_right_ne_nil ps (by simp))
    · rw [List.cons_append, hps,
        chunkLoop_cons_notblocked service acc p q qs (hpre p (by simp))]
      rw [← hps, ih c post (acc ++ (apply_guardrail service p).2.1)
        (fun d hd => hpre d (by simp [hd])) hb]
      rfl

theorem processEvent_start (service : Service) (s : StreamState) :
    processEvent service s StreamEvent.messageStart = StepResult.next s := rfl

theorem processEvent_metadata (service : Service) (s : StreamState) :
    processEvent service s StreamEvent.metadata = StepResult.next s := rfl

theorem processEvent_malformed (service : Service) (s : StreamState) :
    processEvent service s (StreamEvent.contentBlockDelta none) =
      StepResult.crashed := rfl

theorem processEvent_buffer (service : Service) (s : StreamState) (t : List Char)
    (h : ¬TEXT_UNIT < (s.buffer_text ++ t).length) :
    processEvent service s (StreamEvent.contentBlockDelta (some t)) =
      StepResult.next { s with buffer_text := s.buffer_text ++ t } := by
  rw [processEvent, if_neg h]

theorem processEvent_flush (service : Service) (s : StreamState) (t : List Char)
    (h : TEXT_UNIT < (s.buffer_text ++ t).length)
    (hnb : (apply_guardrail service s.buffer_text).1 = false) :
    processEvent service s (StreamEvent.contentBlockDelta (some t)) =
      StepResult.next
        { full_text := s.full_text ++ (apply_guardrail service s.buffer_text).2.1
          buffer_text := t
          applied_guardrails :=
            s.applied_guardrails ++ [(apply_guardrail service s.buffer_text).2.2]
          calls := s.calls ++ [s.buffer_text] } := by
  rw [processEvent, if_pos h]
  rw [if_neg (by rw [hnb]; intro hc; cases hc)]

theorem processEvent_flush_blocked (service : Service) (s : StreamState)
    (t : List Char)
    (h : TEXT_UNIT < (s.buffer_text ++ t).length)
    (hb : (apply_guardrail service s.buffer_text).1 = true) :
    processEvent service s (StreamEvent.contentBlockDelta (some t)) =
      StepResult.halted
        { full_text := (apply_guardrail service s.buffer_text).2.1
          buffer_text := t
          applied_guardrails :=
            s.applied_guardrails ++ [(apply_guardrail service s.buffer_text).2.2]
          calls := s.calls ++ [s.buffer_text] } := by
  rw [processEvent, if_pos h, if_pos hb]

theorem processEvent_stop_intervened (service : Service) (s : StreamState) :
    processEvent service s
      (StreamEvent.messageStop StopReason.guardrailIntervened) =
      StepResult.halted s := rfl

theorem processEvent_stop (service : Service) (s : StreamState)
    (reason : StopReason) (hr : ¬reason = StopReason.guardrailIntervened)
    (hnb : (apply_guardrail service s.buffer_text).1 = false) :
    processEvent service s (StreamEvent.messageStop reason) =
      StepResult.next { s with calls := s.calls ++ [s.buffer_text] } := by
  rw [processEvent, if_neg hr]
  rw [if_neg (by rw [hnb]; intro hc; cases hc)]

theorem processEvent_stop_blocked (service : Service) (s : StreamState)
    (reason : StopReason) (hr : ¬reason = StopReason.guardrailIntervened)
    (hb : (apply_guardrail service s.buffer_text).1 = true) :
    processEvent service s (StreamEvent.messageStop reason) =
      StepResult.next { s with
        applied_guardrails :=
          s.applied_guardrails ++ [(apply_guardrail service s.buffer_text).2.2],
        calls := s.calls ++ [s.buffer_text] } := by
  rw [processEvent, if_neg hr, if_pos hb]

theorem runEvents_nil (service : Service) (s : StreamState) :
    runEvents service s [] = RunResult.running s := rfl

theorem runEvents_cons_next (service : Service) (s s2 : StreamState)
    (e : StreamEvent) (es : List StreamEvent)
    (h : processEvent service s e = StepResult.next s2) :
    runEvents service s (e :: es) = runEvents service s2 es := by
  rw [runEvents, h]

theorem runEvents_cons_halted (service : Service) (s s2 : StreamState)
    (e : StreamEvent) (es : List StreamEvent)
    (h : processEvent service s e = StepResult.halted s2) :
    runEvents service s (e :: es) = RunResult.halted s2 := by
  rw [runEvents, h]

theorem runEvents_cons_crashed (service : Service) (s : StreamState)
    (e : StreamEvent) (es : List StreamEvent)
    (h : processEvent service s e = StepResult.crashed) :
    runEvents service s (e :: es) = RunResult.crashed := by
  rw [runEvents, h]

theorem runEvents_metadata_only (service : Service) :
    ∀ (rest : List StreamEvent) (s : StreamState),
    (∀ e ∈ rest, e = StreamEvent.metadata) →
    runEvents service s rest = RunResult.running s := by
  intro rest
  induction rest with
  | nil => intro s _; rfl
  | cons e es ih =>
    intro s h
    rw [h e (by simp),
      runEvents_cons_next service s s StreamEvent.metadata es
        (processEvent_metadata service s)]
    exact ih s (fun e2 he2 => h e2 (by simp [he2]))

end Guardrails

namespace Guardrails

/-- Running the loop over delta events followed by a normal messageStop,
with a service that never intervenes: the run terminates normally, the
final `full_text` plus the residual buffer equals the concatenation of the
prior state with all deltas, the recorded history grows only by the
threshold flushes, and the service is called once per threshold flush plus
once at stream end. -/
theorem runDeltas_clean (service : Service)
    (hnone : ∀ t, (service t).action = GuardrailAction.NONE) :
    ∀ (deltas : List (List Char)) (s : StreamState),
    ∃ s2, runEvents service s
        (deltas.map (fun d => StreamEvent.contentBlockDelta (some d)) ++
          [StreamEvent.messageStop StopReason.endTurn]) = RunResult.running s2 ∧
      s2.full_text ++ s2.buffer_text =
        s.full_text ++ s.buffer_text ++ deltas.flatten ∧
      s2.applied_guardrails.length =
        s.applied_guardrails.length + thresholdFlushes s.buffer_text deltas ∧
      s2.calls.length =
        s.calls.length + thresholdFlushes s.buffer_text deltas + 1 := by
  intro deltas
  induction deltas with
  | nil =>
    intro s
    refine ⟨{ s with calls := s.calls ++ [s.buffer_text] }, ?_, ?_, ?_, ?_⟩
    · rw [List.map_nil, List.nil_append]
      rw [runEvents_cons_next service s _ _ []
        (processEvent_stop service s StopReason.endTurn (by decide)
          (by rw [apply_guardrail_of_none service _ (hnone _)]))]
      exact runEvents_nil service _
    · simp [thresholdFlushes]
    · simp [thresholdFlushes]
    · simp [thresholdFlushes]
  | cons d ds ih =>
    intro s
    rw [List.map_cons, List.cons_append]
    have hag := apply_guardrail_of_none service s.buffer_text (hnone s.buffer_text)
    by_cases hth : TEXT_UNIT < (s.buffer_text ++ d).length
    · have hpe := processEvent_flush service s d hth (by rw [hag])
      rw [hag] at hpe
      rw [runEvents_cons_next service s _ _ _ hpe]
      obtain ⟨s2, hrun, hfull, happ, hcalls⟩ := ih
        { full_text := s.full_text ++ s.buffer_text
          buffer_text := d
          applied_guardrails := s.applied_guardrails ++ [service s.buffer_text]
          calls := s.calls ++ [s.buffer_text] }
      simp only at hfull happ hcalls
      have hflush : thresholdFlushes s.buffer_text (d :: ds) =
          thresholdFlushes d ds + 1 := by
        simp only [thresholdFlushes]
        rw [if_pos hth]
      refine ⟨s2, hrun, ?_, ?_, ?_⟩
      · rw [hfull]
        simp [List.flatten_cons, List.append_assoc]
      · rw [happ, hflush, List.length_append]
        simp only [List.length_cons, List.length_nil]
        omega
      · rw [hcalls, hflush, List.length_append]
        simp only [List.length_cons, List.length_nil]
        omega
    · rw [runEvents_cons_next service s _ _ _ (processEvent_buffer service s d hth)]
      obtain ⟨s2, hrun, hfull, happ, hcalls⟩ := ih
        { s with buffer_text := s.buffer_text ++ d }
      simp only at hfull happ hcalls
      have hnof : thresholdFlushes s.buffer_text (d :: ds) =
          thresholdFlushes (s.buffer_text ++ d) ds := by
        simp only [thresholdFlushes]
        rw [if_neg hth]
      refine ⟨s2, hrun, ?_, ?_, ?_⟩
      · rw [hfull]
        simp [List.flatten_cons, List.append_assoc]
      · rw [happ, hnof]
      · rw [hcalls, hnof]

end Guardrails

namespace Guardrails

/-- C1 (counterexample): for the 25001-character text of a 24999-letter
word, one space and one letter, the windows evaluated by the batch chunker
(`apply_guardrail_full_text`, instrumented by its service-call list) do
not concatenate back to the text: the boundary space is dropped by
`textwrap.wrap`. -/
theorem C1_counterexample :
    LIMIT_TEXT_UNIT * TEXT_UNIT <
      (List.replicate 24999 'a' ++ ' ' :: ['b'] : List Char).length ∧
    (apply_guardrail_full_text cleanService
      (List.replicate 24999 'a' ++ ' ' :: ['b'])).2.flatten ≠
      List.replicate 24999 'a' ++ ' ' :: ['b'] := by
  have hlen : (List.replicate 24999 'a' ++ ' ' :: ['b'] : List Char).length = 25001 := by
    rw [List.length_append, List.length_replicate]
    rfl
  constructor
  · rw [hlen]
    decide
  · rw [apply_guardrail_full_text, if_neg (by rw [hlen]; decide)]
    rw [show (LIMIT_TEXT_UNIT * TEXT_UNIT : Nat) = 25000 from rfl]
    rw [Textwrap.wrap_T0]
    rw [chunkLoop_clean cleanService _ [] (List.cons_ne_nil _ _)
      (fun d _ => by rw [apply_guardrail_clean])]
    show ([List.replicate 24999 'a', ['b']] : List (List Char)).flatten ≠
      List.replicate 24999 'a' ++ ' ' :: ['b']
    intro hcon
    have hlc := congrArg List.length hcon
    rw [hlen, List.flatten_cons, List.flatten_cons, List.flatten_nil,
      List.append_nil, List.length_append, List.length_replicate,
      List.length_cons, List.length_nil] at hlc
    omega

/-- C1 (amended): for an over-quota text with no whitespace characters,
the windows produced and evaluated by the batch chunker are exactly the
textwrap windows, each at most `LIMIT_TEXT_UNIT * TEXT_UNIT` characters
long, and their concatenation is exactly the text; with whitespace at a
window boundary, characters are dropped (see the counterexample). -/
theorem C1_batch_windows_amended (text : List Char)
    (hws : ∀ c ∈ text, Textwrap.isPyWS c = false)
    (hlong : LIMIT_TEXT_UNIT * TEXT_UNIT < text.length) :
    (apply_guardrail_full_text cleanService text).2 =
      Textwrap.wrap (LIMIT_TEXT_UNIT * TEXT_UNIT) text ∧
    (∀ w ∈ (apply_guardrail_full_text cleanService text).2,
      w.length ≤ LIMIT_TEXT_UNIT * TEXT_UNIT) ∧
    (apply_guardrail_full_text cleanService text).2.flatten = text := by
  have hwrap := Textwrap.wrap_noWS (LIMIT_TEXT_UNIT * TEXT_UNIT) text
    (by decide) hws
  have hne : Textwrap.wrap (LIMIT_TEXT_UNIT * TEXT_UNIT) text ≠ [] := by
    intro hcon
    have hx := hwrap.1
    rw [hcon, List.flatten_nil] at hx
    rw [← hx] at hlong
    simp at hlong
  rw [apply_guardrail_full_text, if_neg (by omega)]
  rw [chunkLoop_clean cleanService _ [] hne
    (fun d _ => by rw [apply_guardrail_clean])]
  exact ⟨rfl, fun w hw => hwrap.2 w hw, hwrap.1⟩

/-- C1 (witness): the amended statement at the whitespace-free over-quota
text of 25001 letters. -/
theorem C1_witness :
    (apply_guardrail_full_text cleanService (List.replicate 25001 'a')).2 =
      Textwrap.wrap (LIMIT_TEXT_UNIT * TEXT_UNIT) (List.replicate 25001 'a') ∧
    (∀ w ∈ (apply_guardrail_full_text cleanService (List.replicate 25001 'a')).2,
      w.length ≤ LIMIT_TEXT_UNIT * TEXT_UNIT) ∧
    (apply_guardrail_full_text cleanService (List.replicate 25001 'a')).2.flatten =
      List.replicate 25001 'a' :=
  C1_batch_windows_amended (List.replicate 25001 'a')
    (fun c hc => by rw [List.eq_of_mem_replicate hc]; rfl)
    (by rw [List.length_replicate]; decide)

/-- C2 (counterexample): a clean stream of deltas of lengths 1000, 1000
and 1 (total exactly `2 * TEXT_UNIT + 1`) incurs three evaluation calls,
not two, and the returned `full_text` misses the residual delta, so it is
not the concatenation of all deltas. -/
theorem C2_counterexample :
    (([List.replicate 1000 'a', List.replicate 1000 'b', ['c']] :
        List (List Char)).flatten).length = 2 * TEXT_UNIT + 1 ∧
    runEvents cleanService initState
      [StreamEvent.contentBlockDelta (some (List.replicate 1000 'a')),
       StreamEvent.contentBlockDelta (some (List.replicate 1000 'b')),
       StreamEvent.contentBlockDelta (some ['c']),
       StreamEvent.messageStop StopReason.endTurn] =
      RunResult.running
        ⟨List.replicate 1000 'a' ++ List.replicate 1000 'b', ['c'],
         [cleanResponse, cleanResponse],
         [List.replicate 1000 'a', List.replicate 1000 'b', ['c']]⟩ ∧
    (List.replicate 1000 'a' ++ List.replicate 1000 'b' : List Char) ≠
      ([List.replicate 1000 'a', List.replicate 1000 'b', ['c']] :
        List (List Char)).flatten ∧
    ([List.replicate 1000 'a', List.replicate 1000 'b', ['c']] :
      List (List Char)).length ≠ 2 := by
  refine ⟨?_, ?_, ?_, by decide⟩
  · rw [List.flatten_cons, List.flatten_cons, List.flatten_cons,
      List.flatten_nil, List.append_nil, List.length_append,
      List.length_append, List.length_replicate, List.length_replicate]
    decide
  · have e1 : processEvent cleanService initState
        (StreamEvent.contentBlockDelta (some (List.replicate 1000 'a'))) =
        StepResult.next ⟨[], List.replicate 1000 'a', [], []⟩ :=
      processEvent_buffer cleanService initState (List.replicate 1000 'a')
        (by show ¬TEXT_UNIT < (([] : List Char) ++ List.replicate 1000 'a').length
            rw [List.nil_append, List.length_replicate]
            decide)
    have e2 : processEvent cleanService ⟨[], List.replicate 1000 'a', [], []⟩
        (StreamEvent.contentBlockDelta (some (List.replicate 1000 'b'))) =
        StepResult.next ⟨List.replicate 1000 'a', List.replicate 1000 'b',
          [cleanResponse], [List.replicate 1000 'a']⟩ :=
      processEvent_flush cleanService ⟨[], List.replicate 1000 'a', [], []⟩
        (List.replicate 1000 'b')
        (by show TEXT_UNIT <
              ((List.replicate 1000 'a' : List Char) ++ List.replicate 1000 'b').length
            rw [List.length_append, List.length_replicate, List.length_replicate]
            decide)
        (by rw [apply_guardrail_clean])
    have e3 : processEvent cleanService ⟨List.replicate 1000 'a',
        List.replicate 1000 'b', [cleanResponse], [List.replicate 1000 'a']⟩
        (StreamEvent.contentBlockDelta (some ['c'])) =
        StepResult.next ⟨List.replicate 1000 'a' ++ List.replicate 1000 'b', ['c'],
          [cleanResponse, cleanResponse],
          [List.replicate 1000 'a', List.replicate 1000 'b']⟩ :=
      processEvent_flush cleanService _ ['c']
        (by show TEXT_UNIT <
              ((List.replicate 1000 'b' : List Char) ++ ['c']).length
            rw [List.length_append, List.length_replicate]
            decide)
        (by rw [apply_guardrail_clean])
    have e4 : processEvent cleanService ⟨List.replicate 1000 'a' ++
        List.replicate 1000 'b', ['c'], [cleanResponse, cleanResponse],
        [List.replicate 1000 'a', List.replicate 1000 'b']⟩
        (StreamEvent.messageStop StopReason.endTurn) =
        StepResult.next ⟨List.replicate 1000 'a' ++ List.replicate 1000 'b', ['c'],
          [cleanResponse, cleanResponse],
          [List.replicate 1000 'a', List.replicate 1000 'b', ['c']]⟩ :=
      processEvent_stop cleanService _ StopReason.endTurn (by decide)
        (by rw [apply_guardrail_clean])
    rw [runEvents_cons_next _ _ _ _ _ e1, runEvents_cons_next _ _ _ _ _ e2,
      runEvents_cons_next _ _ _ _ _ e3, runEvents_cons_next _ _ _ _ _ e4]
    exact runEvents_nil _ _
  · intro hcon
    have hlc := congrArg List.length hcon
    rw [List.flatten_cons, List.flatten_cons, List.flatten_cons,
      List.flatten_nil, List.append_nil, List.length_append,
      List.length_append, List.length_append, List.length_replicate,
      List.length_replicate] at hlc
    simp at hlc

/-- C2 (amended): for a never-intervening service, the stream loop
terminates normally with `full_text` plus the residual buffer equal to the
concatenation of the deltas (the residual buffer itself is evaluated but
never appended), the history holding exactly the threshold flushes, and
one evaluation call per threshold flush plus one unconditional call at
stream end — so the call count depends on the delta boundaries, not only
on the total length. -/
theorem C2_stream_totals_amended (service : Service)
    (hnone : ∀ t, (service t).action = GuardrailAction.NONE)
    (deltas : List (List Char)) :
    ∃ s, runEvents service initState
        (deltas.map (fun d => StreamEvent.contentBlockDelta (some d)) ++
          [StreamEvent.messageStop StopReason.endTurn]) = RunResult.running s ∧
      s.full_text ++ s.buffer_text = deltas.flatten ∧
      s.applied_guardrails.length = thresholdFlushes [] deltas ∧
      s.calls.length = thresholdFlushes [] deltas + 1 := by
  obtain ⟨s2, hrun, hfull, happ, hcalls⟩ := runDeltas_clean service hnone deltas initState
  simp only [initState, List.nil_append, List.length_nil, Nat.zero_add]
    at hfull happ hcalls
  exact ⟨s2, hrun, hfull, happ, hcalls⟩

/-- C2 (witness): the amended statement at the clean three-delta stream of
total length 2001. -/
theorem C2_witness :
    ∃ s, runEvents cleanService initState
        (([List.replicate 1000 'a', List.replicate 1000 'b', ['c']].map
          (fun d => StreamEvent.contentBlockDelta (some d))) ++
          [StreamEvent.messageStop StopReason.endTurn]) = RunResult.running s ∧
      s.full_text ++ s.buffer_text =
        ([List.replicate 1000 'a', List.replicate 1000 'b', ['c']] :
          List (List Char)).flatten ∧
      s.applied_guardrails.length =
        thresholdFlushes [] [List.replicate 1000 'a', List.replicate 1000 'b', ['c']] ∧
      s.calls.length =
        thresholdFlushes [] [List.replicate 1000 'a', List.replicate 1000 'b', ['c']] + 1 :=
  C2_stream_totals_amended cleanService (fun _ => rfl)
    [List.replicate 1000 'a', List.replicate 1000 'b', ['c']]

/-- C3: at stream end with a non-blocking final verdict, the code
evaluates the remaining buffer (even an empty one) but discards its
replacement text and does not record the result: for the clean stream of
one two-character delta, the returned `full_text` is empty and the history
is empty, while one call on the buffer was made; and for an empty stream,
a call is still made on the empty buffer. -/
theorem C3_final_flush_discarded :
    runEvents cleanService initState
      [StreamEvent.contentBlockDelta (some ['h', 'i']),
       StreamEvent.messageStop StopReason.endTurn] =
      RunResult.running ⟨[], ['h', 'i'], [], [['h', 'i']]⟩ ∧
    runEvents cleanService initState [StreamEvent.messageStop StopReason.endTurn] =
      RunResult.running ⟨[], [], [], [[]]⟩ := by
  decide

/-- C4: once a threshold flush records a blocked verdict, the loop breaks
immediately: no later event is consumed and no further evaluation is made
(the call list gains exactly the flushed buffer), and `full_text` becomes
the replacement text; and after a blocked end-of-stream flush, the
remaining telemetry events of a well-formed stream are consumed without
any further evaluation. -/
theorem C4_blocked_stops_consumption (service : Service) (s : StreamState)
    (t : List Char)
    (hover : TEXT_UNIT < (s.buffer_text ++ t).length)
    (hblock : (apply_guardrail service s.buffer_text).1 = true) :
    (∀ rest : List StreamEvent,
      runEvents service s (StreamEvent.contentBlockDelta (some t) :: rest) =
        RunResult.halted
          ⟨(apply_guardrail service s.buffer_text).2.1, t,
            s.applied_guardrails ++ [(apply_guardrail service s.buffer_text).2.2],
            s.calls ++ [s.buffer_text]⟩) ∧
    (∀ (reason : StopReason) (rest : List StreamEvent),
      reason ≠ StopReason.guardrailIntervened →
      (∀ e ∈ rest, e = StreamEvent.metadata) →
      runEvents service s (StreamEvent.messageStop reason :: rest) =
        RunResult.running { s with
          applied_guardrails :=
            s.applied_guardrails ++ [(apply_guardrail service s.buffer_text).2.2],
          calls := s.calls ++ [s.buffer_text] }) := by
  constructor
  · intro rest
    exact runEvents_cons_halted service s _ _ rest
      (processEvent_flush_blocked service s t hover hblock)
  · intro reason rest hr hmeta
    rw [runEvents_cons_next service s _ _ rest
      (processEvent_stop_blocked service s reason hr hblock)]
    exact runEvents_metadata_only service rest _ hmeta

/-- C4 (witness): a blocked flush at a 1000-character buffer halts the
stream with the replacement text and exactly one recorded call. -/
theorem C4_witness :
    runEvents blockService ⟨[], List.replicate 1000 'b', [], []⟩
      [StreamEvent.contentBlockDelta (some ['c'])] =
      RunResult.halted
        ⟨"BLOCKED".data, ['c'], [blockedResponse], [List.replicate 1000 'b']⟩ :=
  (C4_blocked_stops_consumption blockService ⟨[], List.replicate 1000 'b', [], []⟩
    ['c']
    (by show TEXT_UNIT < ((List.replicate 1000 'b' : List Char) ++ ['c']).length
        rw [List.length_append, List.length_replicate]
        decide)
    rfl).1 []

/-- C5 (counterexample): after a clean flush has accumulated 1000
characters of output, a blocking flush replaces `full_text` with the
replacement text alone — the result is not the accumulated output followed
by the replacement text, as the claim states. -/
theorem C5_counterexample :
    stream_conversation blockOnB
      [StreamEvent.contentBlockDelta (some (List.replicate 1000 'a')),
       StreamEvent.contentBlockDelta (some (List.replicate 1000 'b')),
       StreamEvent.contentBlockDelta (some ['c'])] =
      some ("BLOCKED".data, [cleanResponse, blockedResponse]) ∧
    ("BLOCKED".data : List Char) ≠
      List.replicate 1000 'a' ++ "BLOCKED".data := by
  constructor
  · have ha : (List.replicate 1000 'a' : List Char).head? = some 'a' := by
      rw [show (1000 : Nat) = 999 + 1 from rfl]
      exact head?_replicate_succ 999 'a'
    have hb : (List.replicate 1000 'b' : List Char).head? = some 'b' := by
      rw [show (1000 : Nat) = 999 + 1 from rfl]
      exact head?_replicate_succ 999 'b'
    have e1 : processEvent blockOnB initState
        (StreamEvent.contentBlockDelta (some (List.replicate 1000 'a'))) =
        StepResult.next ⟨[], List.replicate 1000 'a', [], []⟩ :=
      processEvent_buffer blockOnB initState (List.replicate 1000 'a')
        (by show ¬TEXT_UNIT < (([] : List Char) ++ List.replicate 1000 'a').length
            rw [List.nil_append, List.length_replicate]
            decide)
    have e2 : processEvent blockOnB ⟨[], List.replicate 1000 'a', [], []⟩
        (StreamEvent.contentBlockDelta (some (List.replicate 1000 'b'))) =
        StepResult.next ⟨List.replicate 1000 'a', List.replicate 1000 'b',
          [cleanResponse], [List.replicate 1000 'a']⟩ := by
      have h := processEvent_flush blockOnB ⟨[], List.replicate 1000 'a', [], []⟩
        (List.replicate 1000 'b')
        (by show TEXT_UNIT <
              ((List.replicate 1000 'a' : List Char) ++ List.replicate 1000 'b').length
            rw [List.length_append, List.length_replicate, List.length_replicate]
            decide)
        (by show (apply_guardrail blockOnB (List.replicate 1000 'a')).1 = false
            rw [blockOnB_clean _ (by rw [ha]; decide)])
      rw [show (apply_guardrail blockOnB
        ((⟨[], List.replicate 1000 'a', [], []⟩ : StreamState).buffer_text)) =
        (false, List.replicate 1000 'a', cleanResponse) from
        blockOnB_clean _ (by rw [ha]; decide)] at h
      exact h
    have e3 : processEvent blockOnB ⟨List.replicate 1000 'a',
        List.replicate 1000 'b', [cleanResponse], [List.replicate 1000 'a']⟩
        (StreamEvent.contentBlockDelta (some ['c'])) =
        StepResult.halted ⟨"BLOCKED".data, ['c'],
          [cleanResponse, blockedResponse],
          [List.replicate 1000 'a', List.replicate 1000 'b']⟩ := by
      have h := processEvent_flush_blocked blockOnB
        ⟨List.replicate 1000 'a', List.replicate 1000 'b', [cleanResponse],
          [List.replicate 1000 'a']⟩ ['c']
        (by show TEXT_UNIT < ((List.replicate 1000 'b' : List Char) ++ ['c']).length
            rw [List.length_append, List.length_replicate]
            decide)
        (by show (apply_guardrail blockOnB (List.replicate 1000 'b')).1 = true
            rw [blockOnB_blocked _ hb])
      rw [show (apply_guardrail blockOnB
        ((⟨List.replicate 1000 'a', List.replicate 1000 'b', [cleanResponse],
          [List.replicate 1000 'a']⟩ : StreamState).buffer_text)) =
        (true, "BLOCKED".data, blockedResponse) from blockOnB_blocked _ hb] at h
      exact h
    rw [stream_conversation, runEvents_cons_next _ _ _ _ _ e1,
      runEvents_cons_next _ _ _ _ _ e2, runEvents_cons_halted _ _ _ _ _ e3]
  · intro hcon
    have hlc := congrArg List.length hcon
    rw [List.length_append, List.length_replicate] at hlc
    omega

/-- C5 (amended): when a threshold flush returns a blocked verdict, the
returned `full_text` is exactly that verdict's replacement text — the
previously accumulated output is discarded, not prepended. -/
theorem C5_blocked_replaces_output_amended (service : Service) (s : StreamState)
    (t : List Char) (rest : List StreamEvent)
    (hover : TEXT_UNIT < (s.buffer_text ++ t).length)
    (hblock : (apply_guardrail service s.buffer_text).1 = true) :
    ∃ st, runEvents service s (StreamEvent.contentBlockDelta (some t) :: rest) =
        RunResult.halted st ∧
      st.full_text = (apply_guardrail service s.buffer_text).2.1 :=
  ⟨_, runEvents_cons_halted service s _ _ rest
    (processEvent_flush_blocked service s t hover hblock), rfl⟩

/-- C5 (witness): the amended statement at a state holding accumulated
output, with an always-blocking service. -/
theorem C5_witness :
    ∃ st, runEvents blockService
        ⟨['p'], List.replicate 1000 'b', [], []⟩
        [StreamEvent.contentBlockDelta (some ['c'])] = RunResult.halted st ∧
      st.full_text =
        (apply_guardrail blockService
          ((⟨['p'], List.replicate 1000 'b', [], []⟩ : StreamState).buffer_text)).2.1 :=
  C5_blocked_replaces_output_amended blockService
    ⟨['p'], List.replicate 1000 'b', [], []⟩ ['c'] []
    (by show TEXT_UNIT < ((List.replicate 1000 'b' : List Char) ++ ['c']).length
        rw [List.length_append, List.length_replicate]
        decide)
    rfl

end Guardrails

namespace Guardrails

/-- C6: the blocked flag returned by `apply_guardrail` is true exactly
when some violation across the four policy assessment lists carries action
BLOCKED (provided a non-intervening response carries no findings, as the
service guarantees); and on a non-intervening response the text is
returned unchanged with the flag false. -/
theorem C6_blocked_iff_finding (service : Service) (text : List Char)
    (hwf : (service text).action = GuardrailAction.NONE →
      findingsOf (service text).assessments = []) :
    ((apply_guardrail service text).1 = true ↔
      ∃ v ∈ findingsOf (service text).assessments,
        v.action = ViolationAction.BLOCKED) ∧
    ((service text).action = GuardrailAction.NONE →
      (apply_guardrail service text).2.1 = text ∧
      (apply_guardrail service text).1 = false) := by
  by_cases ha : (service text).action = GuardrailAction.GUARDRAIL_INTERVENED
  · rw [apply_guardrail, if_pos ha]
    refine ⟨is_policy_blocked_iff _, ?_⟩
    intro hnone
    rw [hnone] at ha
    cases ha
  · rw [apply_guardrail, if_neg ha]
    have hnone : (service text).action = GuardrailAction.NONE := by
      cases h : (service text).action
      · rfl
      · exact absurd h ha
    refine ⟨⟨fun hfalse => by simp at hfalse, ?_⟩, fun _ => ⟨rfl, rfl⟩⟩
    rintro ⟨v, hv, _⟩
    rw [hwf hnone] at hv
    cases hv

/-- C6 (witness): the equivalence at the always-blocking service, whose
single finding has action BLOCKED, yields a true blocked flag. -/
theorem C6_witness :
    (apply_guardrail blockService ['x']).1 = true :=
  (C6_blocked_iff_finding blockService ['x']
    (fun h => absurd h (by decide))).1.mpr
    ⟨⟨ViolationAction.BLOCKED⟩, by decide, rfl⟩

/-- C7 (counterexample): on the over-quota all-whitespace text,
`textwrap.wrap` yields no windows at all, so no window is blocked, yet the
batch function does not return a normal result: it crashes referencing the
unassigned loop variable (modelled by the `none` first component). -/
theorem C7_counterexample :
    LIMIT_TEXT_UNIT * TEXT_UNIT < (List.replicate 25001 ' ' : List Char).length ∧
    Textwrap.wrap (LIMIT_TEXT_UNIT * TEXT_UNIT) (List.replicate 25001 ' ') = [] ∧
    (apply_guardrail_full_text cleanService (List.replicate 25001 ' ')).1 =
      none := by
  refine ⟨by rw [List.length_replicate]; decide, ?_, ?_⟩
  · rw [show (LIMIT_TEXT_UNIT * TEXT_UNIT : Nat) = 25000 from rfl]
    exact Textwrap.wrap_spaces
  · rw [apply_guardrail_full_text,
      if_neg (by rw [List.length_replicate]; decide),
      show (LIMIT_TEXT_UNIT * TEXT_UNIT : Nat) = 25000 from rfl,
      Textwrap.wrap_spaces]
    rfl

/-- C7 (amended): over quota, if some window is blocked and every earlier
window is clean, the loop stops at that window — the windows evaluated are
exactly the clean prefix plus the blocking window, and the result is
blocked with that window s replacement text; if no window is blocked and
there is at least one window, every window is evaluated and the result is
the concatenation of all replacement texts with the blocked flag false.
(With zero windows the function crashes; see the counterexample.) -/
theorem C7_batch_short_circuit_amended (service : Service) (text : List Char)
    (hlong : LIMIT_TEXT_UNIT * TEXT_UNIT < text.length) :
    (∀ pre c post,
      Textwrap.wrap (LIMIT_TEXT_UNIT * TEXT_UNIT) text = pre ++ c :: post →
      (∀ d ∈ pre, (apply_guardrail service d).1 = false) →
      (apply_guardrail service c).1 = true →
      apply_guardrail_full_text service text =
        (some (true, (apply_guardrail service c).2.1,
          (apply_guardrail service c).2.2), pre ++ [c])) ∧
    (Textwrap.wrap (LIMIT_TEXT_UNIT * TEXT_UNIT) text ≠ [] →
      (∀ d ∈ Textwrap.wrap (LIMIT_TEXT_UNIT * TEXT_UNIT) text,
        (apply_guardrail service d).1 = false) →
      ∃ resp, apply_guardrail_full_text service text =
        (some (false,
          ((Textwrap.wrap (LIMIT_TEXT_UNIT * TEXT_UNIT) text).map
            (fun d => (apply_guardrail service d).2.1)).flatten, resp),
          Textwrap.wrap (LIMIT_TEXT_UNIT * TEXT_UNIT) text)) := by
  rw [apply_guardrail_full_text, if_neg (by omega)]
  constructor
  · intro pre c post hdec hpre hblocked
    rw [hdec]
    exact chunkLoop_blocked_prefix service pre c post [] hpre hblocked
  · intro hne hall
    exact ⟨_, by rw [chunkLoop_clean service _ [] hne hall, List.nil_append]⟩

/-- C7 (witness): both branches of the amended statement at the 25001
character text whose windows are the 24999-letter word and the letter b:
under the block-on-b service the loop stops at the second window with a
blocked result, and under the clean service both windows are evaluated
with a clean concatenated result. -/
theorem C7_witness :
    apply_guardrail_full_text blockOnB (List.replicate 24999 'a' ++ ' ' :: ['b']) =
      (some (true, (apply_guardrail blockOnB ['b']).2.1,
        (apply_guardrail blockOnB ['b']).2.2),
        [List.replicate 24999 'a', ['b']]) ∧
    (∃ resp, apply_guardrail_full_text cleanService
        (List.replicate 24999 'a' ++ ' ' :: ['b']) =
      (some (false,
        ((Textwrap.wrap (LIMIT_TEXT_UNIT * TEXT_UNIT)
            (List.replicate 24999 'a' ++ ' ' :: ['b'])).map
          (fun d => (apply_guardrail cleanService d).2.1)).flatten, resp),
        Textwrap.wrap (LIMIT_TEXT_UNIT * TEXT_UNIT)
          (List.replicate 24999 'a' ++ ' ' :: ['b']))) := by
  have hlen : (List.replicate 24999 'a' ++ ' ' :: ['b'] : List Char).length = 25001 := by
    rw [List.length_append, List.length_replicate]
    rfl
  have hlong : LIMIT_TEXT_UNIT * TEXT_UNIT <
      (List.replicate 24999 'a' ++ ' ' :: ['b'] : List Char).length := by
    rw [hlen]
    decide
  have hwrap : Textwrap.wrap (LIMIT_TEXT_UNIT * TEXT_UNIT)
      (List.replicate 24999 'a' ++ ' ' :: ['b']) =
      [List.replicate 24999 'a'] ++ ['b'] :: [] := by
    rw [show (LIMIT_TEXT_UNIT * TEXT_UNIT : Nat) = 25000 from rfl]
    exact Textwrap.wrap_T0
  have ha : (List.replicate 24999 'a' : List Char).head? = some 'a' := by
    rw [show (24999 : Nat) = 24998 + 1 from rfl]
    exact head?_replicate_succ 24998 'a'
  constructor
  · exact (C7_batch_short_circuit_amended blockOnB
      (List.replicate 24999 'a' ++ ' ' :: ['b']) hlong).1
      [List.replicate 24999 'a'] ['b'] [] hwrap
      (fun d hd => by
        rw [List.mem_singleton] at hd
        rw [hd, blockOnB_clean _ (by rw [ha]; decide)])
      (by rw [blockOnB_blocked ['b'] rfl])
  · exact (C7_batch_short_circuit_amended cleanService
      (List.replicate 24999 'a' ++ ' ' :: ['b']) hlong).2
      (by rw [hwrap]; exact List.cons_ne_nil _ _)
      (fun d _ => by rw [apply_guardrail_clean])

/-- C8 (counterexample): `apply_guardrail` itself performs no local length
check and raises nothing on over-quota input: on a 25001-character text it
still consults the service and returns that verdict — unchanged text and
false flag for a clean service, replacement text and true flag for a
blocking service. -/
theorem C8_counterexample :
    LIMIT_TEXT_UNIT * TEXT_UNIT < (List.replicate 25001 'a' : List Char).length ∧
    apply_guardrail cleanService (List.replicate 25001 'a') =
      (false, List.replicate 25001 'a', cleanResponse) ∧
    apply_guardrail blockService (List.replicate 25001 'a') =
      (true, "BLOCKED".data, blockedResponse) := by
  refine ⟨by rw [List.length_replicate]; decide, ?_, ?_⟩
  · rw [apply_guardrail_clean]
  · rw [apply_guardrail_block]

/-- C8 (amended): `apply_guardrail` has no local quota guard — even on a
text exceeding `LIMIT_TEXT_UNIT * TEXT_UNIT` characters, it returns
normally with the verdict of the service response (here: a
non-intervening response gives the text back unchanged with a false
blocked flag). -/
theorem C8_no_local_quota_check_amended (service : Service) (text : List Char)
    (_hlong : LIMIT_TEXT_UNIT * TEXT_UNIT < text.length)
    (hnone : (service text).action = GuardrailAction.NONE) :
    apply_guardrail service text = (false, text, service text) :=
  apply_guardrail_of_none service text hnone

/-- C8 (witness): the amended statement at the clean service and the
25001-character text. -/
theorem C8_witness :
    apply_guardrail cleanService (List.replicate 25001 'a') =
      (false, List.replicate 25001 'a', cleanService (List.replicate 25001 'a')) :=
  C8_no_local_quota_check_amended cleanService (List.replicate 25001 'a')
    (by rw [List.length_replicate]; decide) rfl

/-- C9 (amended): a content delta whose payload lacks the text field makes
the stream handler crash with a KeyError before any guardrail evaluation,
whatever service, state and remaining events — it is not skipped. -/
theorem C9_malformed_crashes_amended (service : Service) (s : StreamState)
    (rest : List StreamEvent) :
    runEvents service s (StreamEvent.contentBlockDelta none :: rest) =
      RunResult.crashed :=
  runEvents_cons_crashed service s _ rest (processEvent_malformed service s)

/-- C9 (counterexample): the stream with a malformed delta crashes and
returns nothing, while the same stream without it returns normally — the
malformed event is fatal, not skipped. -/
theorem C9_counterexample :
    stream_conversation cleanService
      [StreamEvent.contentBlockDelta none,
       StreamEvent.contentBlockDelta (some ['x']),
       StreamEvent.messageStop StopReason.endTurn] = none ∧
    stream_conversation cleanService
      [StreamEvent.contentBlockDelta (some ['x']),
       StreamEvent.messageStop StopReason.endTurn] = some ([], []) := by
  decide

/-- C10 (counterexample): a single 1500-character delta arriving on an
empty buffer triggers a flush of the EMPTY buffer and then stores the
whole oversized delta as the new buffer: the buffer is not kept at or
under `TEXT_UNIT` characters, and the evaluated chunk is empty rather
than at most `TEXT_UNIT` characters of pending text. -/
theorem C10_counterexample :
    runEvents cleanService initState
      [StreamEvent.contentBlockDelta (some (List.replicate 1500 'a'))] =
      RunResult.running ⟨[], List.replicate 1500 'a', [cleanResponse], [[]]⟩ ∧
    TEXT_UNIT < (List.replicate 1500 'a' : List Char).length := by
  constructor
  · rw [runEvents_cons_next cleanService initState _ _ []
      (processEvent_flush cleanService initState (List.replicate 1500 'a')
        (by show TEXT_UNIT < (([] : List Char) ++ List.replicate 1500 'a').length
            rw [List.nil_append, List.length_replicate]
            decide)
        (by rw [apply_guardrail_clean]))]
    exact runEvents_nil _ _
  · rw [List.length_replicate]
    decide

/-- C10 (amended): a delta either leaves the new buffer equal to the old
buffer plus the delta with length at most `TEXT_UNIT`, or (on a threshold
flush) equal to the delta alone; hence the buffer stays at or under
`TEXT_UNIT` characters only while every single delta is at most
`TEXT_UNIT` characters long. -/
theorem C10_buffer_invariant_amended (service : Service) (s : StreamState)
    (t : List Char) :
    (∃ st, (processEvent service s (StreamEvent.contentBlockDelta (some t)) =
          StepResult.next st ∨
        processEvent service s (StreamEvent.contentBlockDelta (some t)) =
          StepResult.halted st) ∧
      ((st.buffer_text = s.buffer_text ++ t ∧ st.buffer_text.length ≤ TEXT_UNIT) ∨
        st.buffer_text = t)) ∧
    (s.buffer_text.length ≤ TEXT_UNIT → t.length ≤ TEXT_UNIT →
      ∃ st, (processEvent service s (StreamEvent.contentBlockDelta (some t)) =
          StepResult.next st ∨
        processEvent service s (StreamEvent.contentBlockDelta (some t)) =
          StepResult.halted st) ∧
        st.buffer_text.length ≤ TEXT_UNIT) := by
  by_cases hth : TEXT_UNIT < (s.buffer_text ++ t).length
  · by_cases hb : (apply_guardrail service s.buffer_text).1 = true
    · refine ⟨⟨_, Or.inr (processEvent_flush_blocked service s t hth hb),
        Or.inr rfl⟩, ?_⟩
      intro _ ht
      exact ⟨_, Or.inr (processEvent_flush_blocked service s t hth hb), ht⟩
    · have hnb : (apply_guardrail service s.buffer_text).1 = false :=
        Bool.not_eq_true _ ▸ eq_false_of_ne_true hb
      refine ⟨⟨_, Or.inl (processEvent_flush service s t hth hnb),
        Or.inr rfl⟩, ?_⟩
      intro _ ht
      exact ⟨_, Or.inl (processEvent_flush service s t hth hnb), ht⟩
  · have hle : (s.buffer_text ++ t).length ≤ TEXT_UNIT := by omega
    refine ⟨⟨_, Or.inl (processEvent_buffer service s t hth), Or.inl ⟨rfl, hle⟩⟩, ?_⟩
    intro _ _
    exact ⟨_, Or.inl (processEvent_buffer service s t hth), hle⟩

/-- C10 (witness): the bounded branch of the amended statement at the
clean service, the initial state and a one-character delta. -/
theorem C10_witness :
    ∃ st, (processEvent cleanService initState
        (StreamEvent.contentBlockDelta (some ['x'])) = StepResult.next st ∨
      processEvent cleanService initState
        (StreamEvent.contentBlockDelta (some ['x'])) = StepResult.halted st) ∧
      st.buffer_text.length ≤ TEXT_UNIT :=
  (C10_buffer_invariant_amended cleanService initState ['x']).2
    (by decide) (by decide)

end Guardrails
